import Mathlib

/-!
Verification development for the `lang` front end (lexer and parser).

The definitions below are a shallow embedding of the Rust sources:
  - `src/src/lexer.rs` (SourceMap, Lexer)
  - `src/src/version2/parser.rs` (Parser)
Rust `usize`/`u64` values are modelled as `Nat`; `u64` overflow on
integer-literal parsing surfaces as an explicit `panic` outcome, mirroring
`text.parse().unwrap()`.  Fallible or panicking control flow is modelled
with explicit result types.  Diagnostics are modelled as a list of
structured `Diag` values; the Rust code formats them to a text sink, and
the tests of the repository count emitted `error` lines, which corresponds
to the length of the diagnostic list here.
-/

namespace Lang

/-- Byte-offset span `start..stop` (Rust `Range<usize>`, `diagnostics.rs`). -/
structure Span where
  start : Nat
  stop : Nat
deriving Repr, DecidableEq

/-- From `ast.rs`: `pub type Spanned<T> = (T, Span);` -/
abbrev Spanned (α : Type) := α × Span

/-- Rust `enum BinOp` from `lexer.rs`. -/
inductive BinOp
  | add
  | minus
  | multiply
  | divide
  | modulo
  | and
  | or
  | not
deriving Repr, DecidableEq

/-- Rust `enum TokenType` from `lexer.rs` (`Struct`/`Ret` keywords are spelled
`kwStruct`/`kwRet` because `struct` is reserved in Lean). -/
inductive TokenType
  | kwStruct
  | kwRet
  | lbrace
  | rbrace
  | lparen
  | rparen
  | colon
  | semicolon
  | dot
  | comma
  | arrow
  | binOp (op : BinOp)
  | equals
  | binOpEquals (op : BinOp)
  | identifier (s : String)
  | charLit (s : String)
  | stringLit (s : String)
  | num (n : Nat)
deriving Repr, DecidableEq

/-- Rust `struct Token` from `lexer.rs`. -/
structure Token where
  kind : TokenType
  span : Span
deriving Repr, DecidableEq

/-- Structured form of the diagnostics emitted through `DiagnosticEmitter`.
Each constructor corresponds to one `self.emitter.error()....emit()` site in
`lexer.rs` or `version2/parser.rs`; the Rust code formats these to text, and
each one produces exactly one `error:` line in the sink. -/
inductive Diag
  | invalidEscape (c : Char) (span : Span)
  | unterminatedCharLit (text : String) (span : Span)
  | unterminatedStringLit (text : String) (span : Span)
  | invalidCharLiteral (text : String) (span : Span)
  | expectedPrimaryAfterOp (op : TokenType) (span : Span)
  | expectedRParenButGot (got : TokenType) (span : Span)
  | expectedRParenEof
  | expectedButGot (expected : List TokenType) (got : TokenType) (span : Span)
  | expectedButEof (expected : List TokenType)
  | expectedIdentButGot (what : String) (got : TokenType) (span : Span)
  | expectedIdentButEof (what : String)
  | mismatchedBraces
  | expectedExpressionEof
  | expectedIdentifier (span : Span)
  | expectedLParenButGot (got : TokenType) (span : Span)
  | expectedRBraceEof
  | expectedPrimaryButGot (got : TokenType) (span : Span)
  | expectedPrimaryEof
  | expectedIdentBeforeColon (span : Span)
deriving Repr, DecidableEq

/-! ### Character classes and tables of the lexer -/

/-- The single-quote character `'`. -/
def squote : Char := Char.ofNat 39

/-- The double-quote character `"`. -/
def dquote : Char := Char.ofNat 34

/-- The backslash character. -/
def bslash : Char := Char.ofNat 92

/-- Rust `char::is_whitespace` restricted to the ASCII range (the sources
and all test inputs are ASCII). -/
def rsIsWhitespace (c : Char) : Bool :=
  c == ' ' || c == Char.ofNat 9 || c == Char.ofNat 10 || c == Char.ofNat 13 ||
  c == Char.ofNat 11 || c == Char.ofNat 12

/-- The `special_chars` map built in `Lexer::new`. -/
def specialChar (c : Char) : Option TokenType :=
  if c == '+' then some (.binOp .add)
  else if c == '-' then some (.binOp .minus)
  else if c == '*' then some (.binOp .multiply)
  else if c == '/' then some (.binOp .divide)
  else if c == '%' then some (.binOp .modulo)
  else if c == '|' then some (.binOp .or)
  else if c == '&' then some (.binOp .and)
  else if c == '!' then some (.binOp .not)
  else if c == ';' then some .semicolon
  else if c == '.' then some .dot
  else if c == ',' then some .comma
  else if c == '{' then some .lbrace
  else if c == '}' then some .rbrace
  else if c == '(' then some .lparen
  else if c == ')' then some .rparen
  else if c == '=' then some .equals
  else if c == ':' then some .colon
  else none

/-- The `second_special_chars` set built in `Lexer::new`. -/
def secondSpecial (c : Char) : Bool :=
  c == '=' || c == '>'

/-- The `keywords` map built in `Lexer::new`. -/
def keywordLookup (s : String) : Option TokenType :=
  if s == "struct" then some .kwStruct
  else if s == "ret" then some .kwRet
  else none

/-- Rust `String::len` of a decoded text, i.e. its UTF-8 byte length. -/
def utf8Len (cs : List Char) : Nat :=
  (cs.map Char.utf8Size).sum

/-- Rust `u64::MAX`: `text.parse::<u64>()` succeeds exactly for values up to this. -/
def u64Max : Nat := 2 ^ 64 - 1

/-- Digit-string value, as computed by a successful `text.parse::<u64>()`. -/
def digitsVal (cs : List Char) : Nat :=
  cs.foldl (fun a c => a * 10 + (c.toNat - 48)) 0

/-! ### The core tokenizer `Lexer::next_internal` -/

/-- Result of one `Lexer::next_internal` call: a token, end of input, or a
Rust panic (the `unwrap` on an overflowing integer literal).  The `tok` case
carries the remaining characters, the updated `read` counter, the diagnostic
list and the sticky `has_error` flag. -/
inductive NextRes
  | tok (t : Token) (src : List Char) (read : Nat) (ds : List Diag) (he : Bool)
  | eof (read : Nat) (ds : List Diag) (he : Bool)
  | panic
deriving Repr, DecidableEq

/-- The literal-body loop of `next_internal` (`lexer.rs` lines 265-289):
`while let Some(char) = self.src.next_if(|c| *c != start_char)`, handling
escape sequences.  Returns the remaining source, the updated `read`, the
accumulated decoded text, the diagnostics and the error flag. -/
def lexLitLoop (startChar : Char) :
    List Char → Nat → List Char → List Diag → Bool →
    List Char × Nat × List Char × List Diag × Bool
  | [], read, text, ds, he => ([], read, text, ds, he)
  | c :: rest, read, text, ds, he =>
    if c == startChar then
      (c :: rest, read, text, ds, he)
    else if c == bslash then
      match rest with
      | [] =>
        -- peek is None: no escape handling, only the bottom-of-loop
        -- `self.read += 1` for the consumed backslash
        lexLitLoop startChar [] (read + 1) text ds he
      | n :: rest2 =>
        if n == 'n' then
          lexLitLoop startChar rest2 (read + 2) (text ++ [Char.ofNat 10]) ds he
        else if n == 't' then
          lexLitLoop startChar rest2 (read + 2) (text ++ [Char.ofNat 9]) ds he
        else if n == bslash then
          lexLitLoop startChar rest2 (read + 2) (text ++ [bslash]) ds he
        else if n == '0' then
          lexLitLoop startChar rest2 (read + 2) (text ++ [Char.ofNat 0]) ds he
        else
          lexLitLoop startChar rest2 (read + 2) text
            (ds ++ [.invalidEscape n ⟨read, read + 1⟩]) true
    else
      lexLitLoop startChar rest (read + 1) (text ++ [c]) ds he

/-- The identifier/number scanning loop of `next_internal` (`lexer.rs`
lines 327-332): `while let Some(char) = self.src.next_if(|c|
!c.is_whitespace() && !self.special_chars.contains_key(c))`. -/
def lexWordLoop : List Char → Nat → List Char → List Char × Nat × List Char
  | [], read, text => ([], read, text)
  | c :: rest, read, text =>
    if !rsIsWhitespace c && (specialChar c).isNone then
      lexWordLoop rest (read + 1) (text ++ [c])
    else
      (c :: rest, read, text)

/-- The tail of the string/char-literal arm of `next_internal` (`lexer.rs`
lines 291-322), after the body loop left `src1`/`read1`/`text`: report an
unterminated literal (no closing quote before end of input) or consume the
closing quote — the latter without touching `read` — and then report a char
literal whose decoded text is longer than one byte.  A token is produced in
every case. -/
def lexLitFinish (startChar : Char) (start : Nat) (src1 : List Char)
    (read1 : Nat) (text : List Char) (ds1 : List Diag) (he1 : Bool) : NextRes :=
  let isCharLit : Bool := startChar == squote
  let len := utf8Len text
  let tokenType := if isCharLit then TokenType.charLit (String.mk text)
                   else TokenType.stringLit (String.mk text)
  match src1 with
  | [] =>
    let ds2 :=
      if isCharLit then
        ds1 ++ [Diag.unterminatedCharLit (String.mk text) ⟨start, read1⟩]
      else
        ds1 ++ [Diag.unterminatedStringLit (String.mk text) ⟨start, read1⟩]
    let ds3 :=
      if isCharLit = true ∧ 1 < len then
        ds2 ++ [Diag.invalidCharLiteral (String.mk text) ⟨start, read1⟩]
      else ds2
    NextRes.tok ⟨tokenType, ⟨start, read1⟩⟩ [] read1 ds3 true
  | _ :: r =>
    -- the closing quote is consumed WITHOUT incrementing `read`
    if isCharLit = true ∧ 1 < len then
      NextRes.tok ⟨tokenType, ⟨start, read1⟩⟩ r read1
        (ds1 ++ [Diag.invalidCharLiteral (String.mk text) ⟨start, read1⟩]) true
    else
      NextRes.tok ⟨tokenType, ⟨start, read1⟩⟩ r read1 ds1 he1

/-- The string/char-literal arm of `next_internal` (`lexer.rs` lines
262-322), entered after the opening quote `startChar` has been consumed. -/
def lexLiteral (startChar : Char) (start : Nat) (src : List Char) (read : Nat)
    (ds : List Diag) (he : Bool) : NextRes :=
  let r := lexLitLoop startChar src read [] ds he
  lexLitFinish startChar start r.1 r.2.1 r.2.2.1 r.2.2.2.1 r.2.2.2.2

/-- The tail of the identifier/keyword/number arm of `next_internal`
(`lexer.rs` lines 334-347).  An all-digit text is parsed as `u64`:
`text.parse().unwrap()` panics when the value exceeds `u64::MAX`. -/
def lexWordFinish (start : Nat) (src1 : List Char) (read1 : Nat)
    (text : List Char) (ds : List Diag) (he : Bool) : NextRes :=
  if text.all Char.isDigit then
    if digitsVal text ≤ u64Max then
      NextRes.tok ⟨.num (digitsVal text), ⟨start, read1⟩⟩ src1 read1 ds he
    else
      NextRes.panic
  else
    match keywordLookup (String.mk text) with
    | some k => NextRes.tok ⟨k, ⟨start, read1⟩⟩ src1 read1 ds he
    | none => NextRes.tok ⟨.identifier (String.mk text), ⟨start, read1⟩⟩ src1 read1 ds he

/-- The identifier/keyword/number arm of `next_internal` (`lexer.rs` lines
324-348), entered after the first character `c` has been consumed. -/
def lexWord (c : Char) (start : Nat) (src : List Char) (read : Nat)
    (ds : List Diag) (he : Bool) : NextRes :=
  let r := lexWordLoop src read [c]
  lexWordFinish start r.1 r.2.1 r.2.2 ds he

/-- Rust `Lexer::next_internal` (`lexer.rs` lines 231-350), over the remaining
source characters, the `read` counter, the diagnostic list and the sticky
`has_error` flag. -/
def nextInternal : List Char → Nat → List Diag → Bool → NextRes
  | [], read, ds, he => .eof read ds he
  | c :: rest, read, ds, he =>
    let start := read
    let read := read + 1
    if rsIsWhitespace c then
      nextInternal rest read ds he
    else
      match specialChar c with
      | some first =>
        match rest with
        | second :: rest2 =>
          if secondSpecial second then
            match first with
            | .binOp op =>
              let tokenType := if second == '=' then TokenType.binOpEquals op
                               else TokenType.arrow
              .tok ⟨tokenType, ⟨start, read + 1⟩⟩ rest2 (read + 1) ds he
            | _ => .tok ⟨first, ⟨start, read⟩⟩ rest read ds he
          else
            .tok ⟨first, ⟨start, read⟩⟩ rest read ds he
        | [] => .tok ⟨first, ⟨start, read⟩⟩ [] read ds he
      | none =>
        if c == dquote || c == squote then
          lexLiteral c start rest read ds he
        else
          lexWord c start rest read ds he

theorem lexLitLoop_src_le (startChar : Char) (src : List Char) (read : Nat)
    (text : List Char) (ds : List Diag) (he : Bool) :
    (lexLitLoop startChar src read text ds he).1.length ≤ src.length := by
  have main : ∀ (n : Nat) (src : List Char), src.length ≤ n →
      ∀ (read : Nat) (text : List Char) (ds : List Diag) (he : Bool),
      (lexLitLoop startChar src read text ds he).1.length ≤ src.length := by
    intro n
    induction n with
    | zero =>
      intro src hsrc read text ds he
      cases src with
      | nil => simp [lexLitLoop]
      | cons c rest => simp at hsrc
    | succ n ih =>
      intro src hsrc read text ds he
      cases src with
      | nil => simp [lexLitLoop]
      | cons c rest =>
        simp only [List.length_cons] at hsrc
        by_cases h1 : (c == startChar) = true
        · rw [lexLitLoop.eq_def]; simp [h1]
        · by_cases h2 : (c == bslash) = true
          · cases rest with
            | nil =>
              rw [lexLitLoop.eq_def]; simp [h1, h2, lexLitLoop]
            | cons n2 rest2 =>
              have hr : rest2.length ≤ n := by
                simp only [List.length_cons] at hsrc; omega
              rw [lexLitLoop.eq_def]
              simp only [if_neg h1, if_pos h2]
              split
              · exact le_trans (ih rest2 hr _ _ _ _) (by simp only [List.length_cons]; omega)
              · split
                · exact le_trans (ih rest2 hr _ _ _ _) (by simp only [List.length_cons]; omega)
                · split
                  · exact le_trans (ih rest2 hr _ _ _ _) (by simp only [List.length_cons]; omega)
                  · split
                    · exact le_trans (ih rest2 hr _ _ _ _) (by simp only [List.length_cons]; omega)
                    · exact le_trans (ih rest2 hr _ _ _ _) (by simp only [List.length_cons]; omega)
          · have hr : rest.length ≤ n := by omega
            rw [lexLitLoop.eq_def]
            simp only [if_neg h1, if_neg h2]
            exact le_trans (ih rest hr _ _ _ _) (by simp only [List.length_cons]; omega)
  exact main src.length src le_rfl read text ds he

theorem lexWordLoop_src_le (src : List Char) (read : Nat) (text : List Char) :
    (lexWordLoop src read text).1.length ≤ src.length := by
  induction src generalizing read text with
  | nil => simp [lexWordLoop]
  | cons c rest ih =>
    simp only [lexWordLoop]
    split
    · exact le_trans (ih _ _) (by simp)
    · simp

theorem lexLitFinish_tok_src_le (startChar : Char) (start : Nat)
    (src1 : List Char) (read1 : Nat) (text : List Char) (ds1 : List Diag)
    (he1 : Bool) (t : Token) (src' : List Char) (read' : Nat) (ds' : List Diag)
    (he' : Bool)
    (h : lexLitFinish startChar start src1 read1 text ds1 he1 =
      .tok t src' read' ds' he') :
    src'.length ≤ src1.length := by
  simp only [lexLitFinish] at h
  split at h
  · cases h; simp
  · split at h
    · cases h; simp
    · cases h; simp

theorem lexLiteral_tok_src_le (startChar : Char) (start : Nat) (src : List Char)
    (read : Nat) (ds : List Diag) (he : Bool) (t : Token) (src' : List Char)
    (read' : Nat) (ds' : List Diag) (he' : Bool)
    (h : lexLiteral startChar start src read ds he = .tok t src' read' ds' he') :
    src'.length ≤ src.length := by
  have hLit := lexLitLoop_src_le startChar src read [] ds he
  simp only [lexLiteral] at h
  exact le_trans (lexLitFinish_tok_src_le _ _ _ _ _ _ _ _ _ _ _ _ h) hLit

theorem lexWordFinish_tok_src_eq (start : Nat) (src1 : List Char) (read1 : Nat)
    (text : List Char) (ds : List Diag) (he : Bool) (t : Token)
    (src' : List Char) (read' : Nat) (ds' : List Diag) (he' : Bool)
    (h : lexWordFinish start src1 read1 text ds he = .tok t src' read' ds' he') :
    src' = src1 := by
  simp only [lexWordFinish] at h
  split at h
  · split at h
    · cases h; rfl
    · cases h
  · split at h
    · cases h; rfl
    · cases h; rfl

theorem lexWord_tok_src_le (c : Char) (start : Nat) (src : List Char)
    (read : Nat) (ds : List Diag) (he : Bool) (t : Token) (src' : List Char)
    (read' : Nat) (ds' : List Diag) (he' : Bool)
    (h : lexWord c start src read ds he = .tok t src' read' ds' he') :
    src'.length ≤ src.length := by
  have hw := lexWordLoop_src_le src read [c]
  simp only [lexWord] at h
  rw [lexWordFinish_tok_src_eq _ _ _ _ _ _ _ _ _ _ _ h]
  exact hw

/-- A returned token always consumed at least one character. -/
theorem nextInternal_tok_src_lt (src : List Char) (read : Nat) (ds : List Diag)
    (he : Bool) (t : Token) (src' : List Char) (read' : Nat) (ds' : List Diag)
    (he' : Bool) (h : nextInternal src read ds he = .tok t src' read' ds' he') :
    src'.length < src.length := by
  induction src generalizing read ds he with
  | nil => simp [nextInternal] at h
  | cons c rest ih =>
    simp only [nextInternal] at h
    split at h
    · exact Nat.lt_of_lt_of_le (ih _ _ _ h) (by simp)
    · split at h
      · split at h
        · split at h
          · split at h
            · cases h; simp; omega
            · cases h; simp
          · cases h; simp
        · cases h; simp
      · split at h
        · exact Nat.lt_of_le_of_lt (lexLiteral_tok_src_le _ _ _ _ _ _ _ _ _ _ _ h)
            (by simp)
        · exact Nat.lt_of_le_of_lt (lexWord_tok_src_le _ _ _ _ _ _ _ _ _ _ _ h)
            (by simp)

/-- Result of tokenizing a whole input: the token list with the final
diagnostics and sticky flag, a lexer panic, or exhausted recursion fuel
(which `tokenize_no_fuelOut` shows cannot happen for the fuel used). -/
inductive TokRes
  | done (toks : List Token) (ds : List Diag) (he : Bool)
  | panic
  | fuelOut
deriving Repr, DecidableEq

/-- Repeatedly calling `next_internal` until end of input (this is what the
parser does through its `next`/`peek` interface; the 2-slot lookahead buffer
only reorders the pulls, not the resulting token sequence). -/
def tokenizeFuel : Nat → List Char → Nat → List Diag → Bool → TokRes
  | 0, _, _, _, _ => .fuelOut
  | f + 1, src, read, ds, he =>
    match nextInternal src read ds he with
    | .eof _ ds' he' => .done [] ds' he'
    | .panic => .panic
    | .tok t src' read' ds' he' =>
      match tokenizeFuel f src' read' ds' he' with
      | .done ts d b => .done (t :: ts) d b
      | .panic => .panic
      | .fuelOut => .fuelOut

/-- Tokenize a whole input; each produced token consumes at least one
character, so `src.length + 1` steps always reach end of input. -/
def tokenize (src : List Char) (read : Nat) (ds : List Diag) (he : Bool) :
    TokRes :=
  tokenizeFuel (src.length + 1) src read ds he

theorem tokenizeFuel_no_fuelOut :
    ∀ (f : Nat) (src : List Char) (read : Nat) (ds : List Diag) (he : Bool),
    src.length < f → tokenizeFuel f src read ds he ≠ .fuelOut := by
  intro f
  induction f with
  | zero => intro src read ds he hf; omega
  | succ f ih =>
    intro src read ds he hf hcon
    simp only [tokenizeFuel] at hcon
    split at hcon
    · exact TokRes.noConfusion hcon
    · exact TokRes.noConfusion hcon
    · rename_i t src' read' ds' he' hq
      have hlt := nextInternal_tok_src_lt _ _ _ _ _ _ _ _ _ hq
      split at hcon
      · exact TokRes.noConfusion hcon
      · exact TokRes.noConfusion hcon
      · rename_i hq2
        exact ih src' read' ds' he' (by omega) hq2

/-- The `tokenize` wrapper never runs out of fuel. -/
theorem tokenize_no_fuelOut (src : List Char) (read : Nat) (ds : List Diag)
    (he : Bool) : tokenize src read ds he ≠ .fuelOut :=
  tokenizeFuel_no_fuelOut _ _ _ _ _ (Nat.lt_succ_self _)

/-! ### The AST

`version2/main.rs` declares `mod ast;` but the corresponding file is not in
the snapshot; the constructor shapes below are exactly those applied in
`version2/parser.rs` (and match the spec's AST table): `Struct` and
`Function` carry a `name`, `Function.body` and `VarDecl.value` and
`Ret.value` are optional. -/

inductive Expr
  | error
  | var (name : Spanned String)
  | num (val : Spanned Nat)
  | charLiteral (text : Spanned String)
  | stringLiteral (text : Spanned String)
  | neg (e : Expr)
  | add (a b : Expr)
  | sub (a b : Expr)
  | mul (a b : Expr)
  | div (a b : Expr)
  | mod (a b : Expr)
  | and (a b : Expr)
  | or (a b : Expr)
  | assign (target value : Expr)
  | structDecl (name : Spanned String)
      (fields : List (Spanned String × Spanned String))
  | function (name : Spanned String)
      (args : List (Spanned String × Spanned String))
      (retType : Spanned String) (body : Option (List Expr))
  | varDecl (name : Spanned String) (type : Spanned String)
      (value : Option Expr)
  | construct (name : Spanned String) (fields : List (Spanned String × Expr))
  | fieldAccess (name : Spanned String) (field : Spanned String)
  | ret (value : Option Expr)
deriving Repr

/-! ### Parser state and non-recursive helpers

The parser (`version2/parser.rs`) pulls tokens on demand through the
lexer's `peek`/`next` interface; since that interface delivers exactly the
`next_internal` token stream in order (theorems `peekOne_*`/`lexNext_*`
below), the parser is embedded over the precomputed token list.  `ds` is
the shared diagnostic stream (the parser and lexer write to the same
emitter), and `hasError` the parser's sticky flag, set at every parser
emit site. -/

structure PState where
  toks : List Token
  ds : List Diag
  hasError : Bool
deriving Repr

/-- Rust `Parser::peek(PeekCount::One)`. -/
def peekOne (s : PState) : Option Token := s.toks.head?

/-- Rust `Parser::peek(PeekCount::Two)`. -/
def peekTwo (s : PState) : Option Token := s.toks[1]?

/-- Rust `Parser::next`. -/
def pnext (s : PState) : Option Token × PState :=
  match s.toks with
  | [] => (none, s)
  | t :: r => (some t, { s with toks := r })

/-- One `self.emitter.error()....emit(); self.has_error = true;` step. -/
def emit (s : PState) (d : Diag) : PState :=
  { s with ds := s.ds ++ [d], hasError := true }

/-- Rust `Parser::get_prec` (`version2/parser.rs` lines 43-53). -/
def getPrec (t : Token) : Option Nat :=
  match t.kind with
  | .binOp op =>
    match op with
    | .add | .minus => some 10
    | .multiply | .divide | .modulo => some 20
    | .and | .or => some 5
    | .not => none
  | _ => none

/-- The operator-to-AST-constructor mapping at the bottom of
`parse_binexp` (`version2/parser.rs` lines 116-130); `none` is the
`unreachable!()` arm. -/
def opToCons (k : TokenType) : Option (Expr → Expr → Expr) :=
  match k with
  | .binOp op =>
    match op with
    | .add => some Expr.add
    | .minus => some Expr.sub
    | .multiply => some Expr.mul
    | .divide => some Expr.div
    | .modulo => some Expr.mod
    | .and => some Expr.and
    | .or => some Expr.or
    | .not => none
  | _ => none

/-- Rust `Parser::expect` (`version2/parser.rs` lines 254-306): consumes the
next token iff its kind is in `expected`; otherwise reports and does NOT
consume. -/
def expect (s : PState) (expected : List TokenType) : Option Token × PState :=
  match peekOne s with
  | some t =>
    if expected.contains t.kind then
      (some t, (pnext s).2)
    else
      (none, emit s (.expectedButGot expected t.kind t.span))
  | none => (none, emit s (.expectedButEof expected))

/-- Rust `Parser::parse_ident` (`version2/parser.rs` lines 308-333). -/
def parseIdent (s : PState) (what : String) : Option (Spanned String) × PState :=
  match peekOne s with
  | some t =>
    match t.kind with
    | .identifier id => (some (id, t.span), (pnext s).2)
    | _ => (none, emit s (.expectedIdentButGot what t.kind t.span))
  | none => (none, emit s (.expectedIdentButEof what))

/-- Rust `Parser::parse_ident_type` (`version2/parser.rs` lines 335-343). -/
def parseIdentType (s : PState) :
    Option (Spanned String × Spanned String) × PState :=
  match parseIdent s "an identifier" with
  | (none, s1) => (none, s1)
  | (some name, s1) =>
    match expect s1 [.colon] with
    | (none, s2) => (none, s2)
    | (some _, s2) =>
      match parseIdent s2 "a type" with
      | (none, s3) => (none, s3)
      | (some ty, s3) => (some (name, ty), s3)

/-- Rust `Parser::skip_until` (`version2/parser.rs` lines 345-368), over the
token list (diagnostics are not touched by it). -/
def skipUntilToks : List Token → List (TokenType × Nat) → List Token
  | [], _ => []
  | t :: rest, targets =>
    let stopTwo :=
      match rest.head? with
      | some nt => targets.any (fun p => p.2 == 2 && nt.kind == p.1)
      | none => false
    if stopTwo then t :: rest
    else
      match targets.find? (fun p => t.kind == p.1 && (p.2 == 0 || p.2 == 1)) with
      | some p => if p.2 == 0 then rest else t :: rest
      | none => skipUntilToks rest targets

/-- Rust `skip_until` lifted to the parser state. -/
def skipUntil (s : PState) (targets : List (TokenType × Nat)) : PState :=
  { s with toks := skipUntilToks s.toks targets }

/-- The leading-unary-minus loop at the top of `parse_primary`
(`version2/parser.rs` lines 139-153), counting the `minus_stack` entries. -/
def countMinus : List Token → Nat → Nat × List Token
  | t :: rest, n =>
    (match t.kind with
     | .binOp op => if op == .minus then countMinus rest (n + 1) else (n, t :: rest)
     | _ => (n, t :: rest))
  | [], n => (n, [])

/-- Rust `minus_stack.into_iter().fold(e, |e, _| Expr::Neg(Box::new(e)))`. -/
def negFold : Nat → Expr → Expr
  | 0, e => e
  | n + 1, e => negFold n (.neg e)

/-- The dummy token `Token::new(TokenType::Num(0), 0..0)` made by
`parse_assign` when input ends right after `=`. -/
def dummyNumToken : Token := ⟨.num 0, ⟨0, 0⟩⟩

/-- The token-after-`=` lookup at the top of `parse_assign`
(`version2/parser.rs` lines 407-417): peek the next token, or report
`expected an expression` at end of input and continue with a dummy. -/
def assignFirstToken (s : PState) : Token × PState :=
  match peekOne s with
  | some token => (token, s)
  | none => (dummyNumToken, emit s .expectedExpressionEof)

/-- The binding-name extraction of `parse_assign` (`version2/parser.rs`
lines 421-431): the assignment target must be a bare identifier; otherwise
report `expected an identifier` (located at the `=`) and continue with an
empty name. -/
def assignName (target : Expr) (s : PState) (equalsSpan : Span) :
    Spanned String × PState :=
  match target with
  | .var ident => (ident, s)
  | _ => (("", ⟨0, 0⟩), emit s (.expectedIdentifier equalsSpan))

/-- Rust `let mut name = (String::new(), 0..0); if token.kind == Struct ||
token.kind == LParen { name = ... }` (`version2/parser.rs` lines 419-432). -/
def assignNameIf (isDecl : Bool) (target : Expr) (s : PState)
    (equalsSpan : Span) : Spanned String × PState :=
  if isDecl then assignName target s equalsSpan
  else (("", ⟨0, 0⟩), s)

/-- The `good` test after a missing `{` in the struct arm of `parse_assign`
(`version2/parser.rs` lines 438-446): the next token already looks like a
field name or a closing brace. -/
def structGood (s : PState) : Bool :=
  match peekOne s with
  | some t =>
    if t.kind == .rbrace then true
    else
      match t.kind with
      | .identifier _ => true
      | _ => false
  | none => false

/-- The `skip_signature` test of the function arm of `parse_assign`
(`version2/parser.rs` lines 507-518): a `{` right after `(` is reported
(`expected ')'`) and the whole signature is skipped. -/
def fnSkipSig (s : PState) : Bool × PState :=
  match peekOne s with
  | some t =>
    match t.kind with
    | .identifier _ => (false, s)
    | _ =>
      if t.kind == .lbrace then
        (true, emit s (.expectedRParenButGot t.kind t.span))
      else (false, s)
  | none => (false, s)

/-- The optional `-> type` clause of the function arm of `parse_assign`
(`version2/parser.rs` lines 553-579).  A `none` first component makes
`parse_assign` return `Assign {target, value: Error}`. -/
def fnRetType (s : PState) : Option (Spanned String) × PState :=
  match peekOne s with
  | some t =>
    if t.kind == .arrow then
      let s1 := (pnext s).2
      match parseIdent s1 "a type" with
      | (some ty, s2) => (some ty, s2)
      | (none, s2) =>
        match peekOne s2 with
        | some t2 =>
          if t2.kind != .comma then (none, s2)
          else (some ("", ⟨0, 0⟩), s2)
        | none => (none, s2)
    else (some ("", ⟨0, 0⟩), s)
  | none => (some ("", ⟨0, 0⟩), s)

/-- Result of a parser routine: a value plus the new state, a Rust panic
(`todo!` in `parse_expression`, `unreachable!` in `parse_binexp`, or a
failing `unwrap`), or exhausted recursion fuel.  The Rust functions are
recursive with no structural bound, so the embedding adds an explicit
fuel; `parse_fuel_sufficient` below shows the fuel chosen in
`parseProgram` is never exhausted. -/
inductive PRes (α : Type)
  | ok (a : α) (s : PState)
  | panic
  | fuelOut
deriving Repr

/-! ### The mutually recursive parsing routines

Every function takes fuel as its first argument and passes one less to
each nested call; all other code is a direct transcription of
`version2/parser.rs`. -/

mutual

/-- Rust `Parser::parse_primary` (`version2/parser.rs` lines 138-252). -/
def parsePrimary : Nat → PState → PRes (Option Expr)
  | 0, _ => .fuelOut
  | f + 1, s0 =>
    let mr := countMinus s0.toks 0
    let nMinus := mr.1
    let s := { s0 with toks := mr.2 }
    match peekOne s with
    | none => .ok none s
    | some pt =>
      match pt.kind with
      | .num n =>
        .ok (some (negFold nMinus (.num (n, pt.span)))) (pnext s).2
      | .identifier id =>
        let s1 := (pnext s).2
        match peekOne s1 with
        | some nt =>
          if nt.kind == .lbrace then
            let s2 := (pnext s1).2
            match constructFields f s2 [] with
            | .ok fields s3 =>
              let s4 := (expect s3 [.rbrace]).2
              .ok (some (.construct (id, pt.span) fields)) s4
            | .panic => .panic
            | .fuelOut => .fuelOut
          else if nt.kind == .dot then
            let s2 := (pnext s1).2
            match parseIdent s2 "a field name" with
            | (some fname, s3) =>
              .ok (some (.fieldAccess (id, pt.span) fname)) s3
            | (none, s3) => .ok none s3
          else
            .ok (some (.var (id, pt.span))) s1
        | none => .ok (some (.var (id, pt.span))) s1
      | .charLit lit => .ok (some (.charLiteral (lit, pt.span))) (pnext s).2
      | .stringLit lit => .ok (some (.stringLiteral (lit, pt.span))) (pnext s).2
      | .lparen =>
        let s1 := (pnext s).2
        match parseAtom f s1 with
        | .ok e s2 =>
          match peekOne s2 with
          | some nt =>
            if nt.kind != .rparen then
              .ok (some e) (emit s2 (.expectedRParenButGot nt.kind nt.span))
            else
              .ok (some e) (pnext s2).2
          | none => .ok (some e) (emit s2 .expectedRParenEof)
        | .panic => .panic
        | .fuelOut => .fuelOut
      | _ => .ok none s

/-- The `Construct` field loop inside `parse_primary`
(`version2/parser.rs` lines 172-194). -/
def constructFields : Nat → PState → List (Spanned String × Expr) →
    PRes (List (Spanned String × Expr))
  | 0, _, _ => .fuelOut
  | f + 1, s, fields =>
    match peekOne s with
    | none => .ok fields s
    | some t =>
      if t.kind == .rbrace then .ok fields s
      else
        match expect s [.dot] with
        | (none, s1) => .ok fields s1
        | (some _, s1) =>
          match parseIdent s1 "a field name" with
          | (none, s2) => .ok fields s2
          | (some fname, s2) =>
            match expect s2 [.equals] with
            | (none, s3) => .ok fields s3
            | (some _, s3) =>
              match parseAtom f s3 with
              | .ok value s4 => constructFields f s4 (fields ++ [(fname, value)])
              | .panic => .panic
              | .fuelOut => .fuelOut

/-- Rust `Parser::parse_binexp` (`version2/parser.rs` lines 55-136): the outer
`while` loop of precedence climbing. -/
def parseBinexp : Nat → Expr → Nat → PState → PRes Expr
  | 0, _, _, _ => .fuelOut
  | f + 1, lhs, minPrec, s =>
    match peekOne s with
    | none => .ok lhs s
    | some t =>
      match getPrec t with
      | none => .ok lhs s
      | some prec =>
        if prec < minPrec then .ok lhs s
        else
          let opPrec := prec
          let s1 := (pnext s).2
          match parsePrimary f s1 with
          | .ok oRhs s2 =>
            let opLen := t.span.stop - t.span.start
            let rs : Expr × PState :=
              match oRhs with
              | some primary => (primary, s2)
              | none =>
                (.error, emit s2 (.expectedPrimaryAfterOp t.kind
                  ⟨t.span.start + opLen, t.span.stop + opLen⟩))
            match binexpClimb f rs.1 opPrec rs.2 with
            | .ok rhs s3 =>
              match opToCons t.kind with
              | some mk => parseBinexp f (mk lhs rhs) minPrec s3
              | none => .panic
            | .panic => .panic
            | .fuelOut => .fuelOut
          | .panic => .panic
          | .fuelOut => .fuelOut

/-- The inner `while` loop of `parse_binexp` (`version2/parser.rs` lines
86-114): climb into the right-hand side while the next operator binds
strictly tighter. -/
def binexpClimb : Nat → Expr → Nat → PState → PRes Expr
  | 0, _, _, _ => .fuelOut
  | f + 1, rhs, opPrec, s =>
    match peekOne s with
    | none => .ok rhs s
    | some t =>
      match getPrec t with
      | none => .ok rhs s
      | some prec =>
        if prec ≤ opPrec then .ok rhs s
        else
          let isGreater := if prec > opPrec then 1 else 0
          match parseBinexp f rhs (opPrec + isGreater) s with
          | .ok rhs' s1 => binexpClimb f rhs' opPrec s1
          | .panic => .panic
          | .fuelOut => .fuelOut

/-- Rust `Parser::parse_atom` (`version2/parser.rs` lines 661-700). -/
def parseAtom : Nat → PState → PRes Expr
  | 0, _ => .fuelOut
  | f + 1, s =>
    match parsePrimary f s with
    | .ok (some primary) s1 =>
      (match peekOne s1 with
       | none => .ok primary s1
       | some t =>
         match t.kind with
         | .binOp _ => parseBinexp f primary 0 s1
         | _ => .ok primary s1)
    | .ok none s1 =>
      (match peekOne s1 with
       | some t =>
         .ok .error (emit (pnext s1).2 (.expectedPrimaryButGot t.kind t.span))
       | none => .ok .error (emit s1 .expectedPrimaryEof))
    | .panic => .panic
    | .fuelOut => .fuelOut

/-- Rust `Parser::parse_expression` (`version2/parser.rs` lines 702-771).  Note
the final `t => todo!("{}", t)` arm: any trailing token that is not a
binary operator, `=` or `:` panics. -/
def parseExpression : Nat → PState → PRes Expr
  | 0, _ => .fuelOut
  | f + 1, s =>
    match parsePrimary f s with
    | .ok none s1 =>
      (match peekOne s1 with
       | some t =>
         if t.kind == .kwRet then
           let s2 := (pnext s1).2
           let retSemi : Bool :=
             match peekOne s2 with
             | some t2 => t2.kind == .semicolon
             | none => false
           if retSemi then .ok (.ret none) (pnext s2).2
           else
             match parseAtom f s2 with
             | .ok value s3 =>
               let s4 := (expect s3 [.semicolon]).2
               .ok (.ret (some value)) s4
             | .panic => .panic
             | .fuelOut => .fuelOut
         else
           .ok .error (emit (pnext s1).2 (.expectedPrimaryButGot t.kind t.span))
       | none => .ok .error (emit s1 .expectedPrimaryEof))
    | .ok (some primary) s1 =>
      (match peekOne s1 with
       | none => .ok .error (emit s1 .expectedExpressionEof)
       | some t =>
         match t.kind with
         | .binOp _ => parseBinexp f primary 0 s1
         | .equals => parseAssign f primary s1
         | .colon =>
           match primary with
           | .var v => parseVarDecl f v s1
           | _ => .ok .error (emit s1 (.expectedIdentBeforeColon t.span))
         | _ => .panic)
    | .panic => .panic
    | .fuelOut => .fuelOut

/-- Rust `Parser::parse_assign` (`version2/parser.rs` lines 403-633), entered
with `peek` at the `=` token. -/
def parseAssign : Nat → Expr → PState → PRes Expr
  | 0, _, _ => .fuelOut
  | f + 1, target, s =>
    match pnext s with
    | (none, _) => .panic  -- `self.next().unwrap()`
    | (some equalsTok, s1) =>
      let ts := assignFirstToken s1
      let token := ts.1
      let s2 := ts.2
      let ns := assignNameIf (token.kind == .kwStruct || token.kind == .lparen)
        target s2 equalsTok.span
      let name := ns.1
      let s3 := ns.2
      if token.kind == .kwStruct then
        let s4 := (pnext s3).2
        match expect s4 [.lbrace] with
        | (some _, s5) => structBody f s5 name []
        | (none, s5) =>
          if structGood s5 then structBody f s5 name []
          else
            match peekTwo s5 with
            | some t2 =>
              if t2.kind != .colon then .ok .error s5
              else structBody f s5 name []
            | none => .ok .error s5
      else if token.kind == .lparen then
        let s4 := (pnext s3).2
        let sk := fnSkipSig s4
        if sk.1 then fnAfterSig f target name [] sk.2
        else
          match fnArgs f sk.2 [] with
          | .ok none s6 => .ok .error s6
          | .ok (some args) s6 => fnAfterSig f target name args s6
          | .panic => .panic
          | .fuelOut => .fuelOut
      else if token.kind == .rparen then
        let s4 := (pnext s3).2
        let s5 := emit s4 (.expectedLParenButGot token.kind token.span)
        match expect s5 [.semicolon, .lbrace] with
        | (some t, s6) =>
          if t.kind == .semicolon then .ok .error s6
          else .ok .error (skipUntil s6 [(.rbrace, 0)])
        | (none, s6) => .ok .error (skipUntil s6 [(.rbrace, 0)])
      else
        match parseAtom f s3 with
        | .ok value s4 =>
          .ok (.assign target value) (expect s4 [.semicolon]).2
        | .panic => .panic
        | .fuelOut => .fuelOut

/-- The struct-declaration field loop of `parse_assign`
(`version2/parser.rs` lines 462-502), including the final
`expected '}' but found eof` report when the loop runs off the end. -/
def structBody : Nat → PState → Spanned String →
    List (Spanned String × Spanned String) → PRes Expr
  | 0, _, _, _ => .fuelOut
  | f + 1, s, name, fields =>
    match peekOne s with
    | none =>
      -- `is_good` is false: fell off the end of input
      .ok (.structDecl name fields) (emit s .expectedRBraceEof)
    | some t =>
      if t.kind == .rbrace then .ok (.structDecl name fields) (pnext s).2
      else
        match parseIdentType s with
        | (none, s1) => .ok .error (skipUntil s1 [(.semicolon, 0)])
        | (some nameType, s1) =>
          let fields1 := fields ++ [nameType]
          match expect s1 [.comma, .rbrace] with
          | (some t2, s2) =>
            if t2.kind == .rbrace then .ok (.structDecl name fields1) s2
            else structBody f s2 name fields1
          | (none, s2) => .ok (.structDecl name fields1) s2

/-- The tail of the function arm of `parse_assign` after the parameter
list (`version2/parser.rs` lines 553-604): the optional `-> type` clause,
then either `;` (forward declaration, `body = None`) or a braced sequence
of expression-statements. -/
def fnAfterSig : Nat → Expr → Spanned String →
    List (Spanned String × Spanned String) → PState → PRes Expr
  | 0, _, _, _, _ => .fuelOut
  | f + 1, target, name, args, s =>
    let rt := fnRetType s
    match rt.1 with
    | none => .ok (.assign target .error) rt.2
    | some retType =>
      match expect rt.2 [.lbrace, .semicolon] with
      | (some st, s8) =>
        if st.kind == .semicolon then
          .ok (.function name args retType none) s8
        else
          match fnBody f s8 [] with
          | .ok body s9 =>
            .ok (.function name args retType (some body))
              (expect s9 [.rbrace]).2
          | .panic => .panic
          | .fuelOut => .fuelOut
      | (none, s8) => .ok (.function name args retType none) s8

/-- The parameter-list loop of the function arm of `parse_assign`
(`version2/parser.rs` lines 521-551).  A `none` result from
`parse_ident_type` makes `parse_assign` return `Expr::Error` as a whole;
that outcome is encoded as `.ok none`. -/
def fnArgs : Nat → PState → List (Spanned String × Spanned String) →
    PRes (Option (List (Spanned String × Spanned String)))
  | 0, _, _ => .fuelOut
  | f + 1, s, args =>
    match peekOne s with
    | none => .ok (some args) s
    | some t =>
      if t.kind == .rparen then .ok (some args) (pnext s).2
      else
        match parseIdentType s with
        | (none, s1) => .ok none s1
        | (some nameType, s1) =>
          let args1 := args ++ [nameType]
          match expect s1 [.comma, .rparen] with
          | (some t2, s2) =>
            if t2.kind == .rparen then .ok (some args1) s2
            else fnArgs f s2 args1
          | (none, s2) =>
            match peekOne s2 with
            | some t3 =>
              match t3.kind with
              | .identifier _ => fnArgs f s2 args1
              | _ => .ok (some args1) s2
            | none => .ok (some args1) s2

/-- The function-body loop of `parse_assign` (`version2/parser.rs` lines
593-600). -/
def fnBody : Nat → PState → List Expr → PRes (List Expr)
  | 0, _, _ => .fuelOut
  | f + 1, s, body =>
    match peekOne s with
    | none => .ok body s
    | some t =>
      if t.kind == .rbrace then .ok body s
      else
        match parseExpression f s with
        | .ok e s1 => fnBody f s1 (body ++ [e])
        | .panic => .panic
        | .fuelOut => .fuelOut

/-- Rust `Parser::parse_vardecl` (`version2/parser.rs` lines 635-659), entered
with `peek` at the `:` token. -/
def parseVarDecl : Nat → Spanned String → PState → PRes Expr
  | 0, _, _ => .fuelOut
  | f + 1, name, s =>
    let s1 := (pnext s).2
    match parseIdent s1 "a type" with
    | (none, s2) => .ok .error s2
    | (some ty, s2) =>
      match expect s2 [.equals, .semicolon] with
      | (some t, s3) =>
        if t.kind == .equals then
          match parseAtom f s3 with
          | .ok value s4 =>
            let s5 := (expect s4 [.semicolon]).2
            .ok (.varDecl name ty (some value)) s5
          | .panic => .panic
          | .fuelOut => .fuelOut
        else .ok (.varDecl name ty none) s3
      | (none, s3) => .ok (.varDecl name ty none) s3

/-- Rust `Parser::parse` (`version2/parser.rs` lines 781-788): loop
`parse_toplevel_decl` (which is just `parse_expression`) until `has_eof`. -/
def parseLoop : Nat → PState → List Expr → PRes (List Expr)
  | 0, _, _ => .fuelOut
  | f + 1, s, ast =>
    match peekOne s with
    | none => .ok ast s
    | some _ =>
      match parseExpression f s with
      | .ok e s1 => parseLoop f s1 (ast ++ [e])
      | .panic => .panic
      | .fuelOut => .fuelOut

end

/-- The fuel used for a whole `Parser::parse` run; `parse_fuel_sufficient`
proves it is never exhausted. -/
def parseFuel (s : PState) : Nat := 8 * s.toks.length + 8

/-- Rust `Parser::parse` over a token list. -/
def parseProgram (s : PState) : PRes (List Expr) :=
  parseLoop (parseFuel s) s []

/-- Outcome of running the whole front end on a source text. -/
inductive RunRes
  | ok (ast : List Expr) (ds : List Diag) (hasError : Bool)
  | lexPanic
  | parsePanic
  | fuelOut
deriving Repr

/-- The whole front end: build the token stream (as the parser would pull
it), then parse.  `lexPanic` is a panic inside `Lexer::next`,
`parsePanic` a panic inside `Parser::parse`. -/
def run (source : String) : RunRes :=
  match tokenize source.data 0 [] false with
  | .panic => .lexPanic
  | .fuelOut => .fuelOut
  | .done toks ds he =>
    match parseProgram ⟨toks, ds, he⟩ with
    | .ok ast s => .ok ast s.ds s.hasError
    | .panic => .parsePanic
    | .fuelOut => .fuelOut

/-- The number of `error:` diagnostics printed by a run (what the
repository's tests count), when the run does not panic. -/
def runDiagCount (r : RunRes) : Option Nat :=
  match r with
  | .ok _ ds _ => some ds.length
  | _ => none

/-! ### Token-consumption bookkeeping for the non-recursive helpers -/

theorem pnext_snd_toks_le (s : PState) : (pnext s).2.toks.length ≤ s.toks.length := by
  cases hs : s.toks <;> simp [pnext, hs]

theorem pnext_eq_toks_le (s : PState) (o : Option Token) (s' : PState)
    (h : pnext s = (o, s')) : s'.toks.length ≤ s.toks.length := by
  have := pnext_snd_toks_le s
  rw [h] at this
  exact this

theorem peekOne_some_toks_ne (s : PState) (t : Token) (h : peekOne s = some t) :
    s.toks ≠ [] := by
  intro he
  simp [peekOne, he] at h

theorem pnext_snd_toks_lt (s : PState) (hne : s.toks ≠ []) :
    (pnext s).2.toks.length < s.toks.length := by
  cases hs : s.toks with
  | nil => exact absurd hs hne
  | cons t r => simp [pnext, hs]

theorem emit_toks (s : PState) (d : Diag) : (emit s d).toks = s.toks := rfl

theorem expect_eq_toks_le (s : PState) (es : List TokenType) (o : Option Token)
    (s' : PState) (h : expect s es = (o, s')) :
    s'.toks.length ≤ s.toks.length := by
  simp only [expect] at h
  split at h
  · split at h
    · cases h; exact pnext_snd_toks_le s
    · cases h; simp [emit_toks]
  · cases h; simp [emit_toks]

theorem expect_some_toks_lt (s : PState) (es : List TokenType) (t : Token)
    (s' : PState) (h : expect s es = (some t, s')) :
    s'.toks.length < s.toks.length := by
  simp only [expect] at h
  split at h
  · split at h
    · cases h
      rename_i hp hcond
      exact pnext_snd_toks_lt s (peekOne_some_toks_ne s _ hp)
    · cases h
  · cases h

theorem parseIdent_eq_toks_le (s : PState) (w : String)
    (o : Option (Spanned String)) (s' : PState) (h : parseIdent s w = (o, s')) :
    s'.toks.length ≤ s.toks.length := by
  simp only [parseIdent] at h
  split at h
  · split at h
    · cases h; exact pnext_snd_toks_le s
    · cases h; simp [emit_toks]
  · cases h; simp [emit_toks]

theorem parseIdent_some_toks_lt (s : PState) (w : String) (v : Spanned String)
    (s' : PState) (h : parseIdent s w = (some v, s')) :
    s'.toks.length < s.toks.length := by
  simp only [parseIdent] at h
  split at h
  · split at h
    · cases h
      rename_i tt hp kscr idv hk
      exact pnext_snd_toks_lt s (peekOne_some_toks_ne s _ hp)
    · cases h
  · cases h

theorem parseIdentType_eq_toks_le (s : PState)
    (o : Option (Spanned String × Spanned String)) (s' : PState)
    (h : parseIdentType s = (o, s')) : s'.toks.length ≤ s.toks.length := by
  simp only [parseIdentType] at h
  split at h
  next s1 h1 =>
    cases h
    exact parseIdent_eq_toks_le _ _ _ _ h1
  next nm s1 h1 =>
    split at h
    next s2 h2 =>
      cases h
      exact le_trans (expect_eq_toks_le _ _ _ _ h2) (parseIdent_eq_toks_le _ _ _ _ h1)
    next t2 s2 h2 =>
      split at h
      next s3 h3 =>
        cases h
        exact le_trans (parseIdent_eq_toks_le _ _ _ _ h3)
          (le_trans (expect_eq_toks_le _ _ _ _ h2) (parseIdent_eq_toks_le _ _ _ _ h1))
      next ty s3 h3 =>
        cases h
        exact le_trans (parseIdent_eq_toks_le _ _ _ _ h3)
          (le_trans (expect_eq_toks_le _ _ _ _ h2) (parseIdent_eq_toks_le _ _ _ _ h1))

theorem parseIdentType_some_toks_lt (s : PState)
    (v : Spanned String × Spanned String) (s' : PState)
    (h : parseIdentType s = (some v, s')) : s'.toks.length < s.toks.length := by
  simp only [parseIdentType] at h
  split at h
  next s1 h1 => cases h
  next nm s1 h1 =>
    split at h
    next s2 h2 => cases h
    next t2 s2 h2 =>
      split at h
      next s3 h3 => cases h
      next ty s3 h3 =>
        cases h
        exact lt_of_le_of_lt (parseIdent_eq_toks_le _ _ _ _ h3)
          (lt_of_lt_of_le (expect_some_toks_lt _ _ _ _ h2)
            (le_of_lt (parseIdent_some_toks_lt _ _ _ _ h1)))

theorem skipUntilToks_le (toks : List Token) (targets : List (TokenType × Nat)) :
    (skipUntilToks toks targets).length ≤ toks.length := by
  induction toks with
  | nil => simp [skipUntilToks]
  | cons t rest ih =>
    rw [skipUntilToks.eq_def]
    simp only
    split
    · simp
    · split
      · split
        · simp
        · simp
      · exact le_trans ih (by simp only [List.length_cons]; omega)

theorem skipUntil_toks_le (s : PState) (targets : List (TokenType × Nat)) :
    (skipUntil s targets).toks.length ≤ s.toks.length := by
  simp only [skipUntil]
  exact skipUntilToks_le s.toks targets

theorem countMinus_toks_le (toks : List Token) (n : Nat) :
    (countMinus toks n).2.length ≤ toks.length := by
  induction toks generalizing n with
  | nil => simp [countMinus]
  | cons t rest ih =>
    rw [countMinus.eq_def]
    simp only
    split
    · split
      · exact le_trans (ih _) (by simp only [List.length_cons]; omega)
      · simp
    · simp

theorem expect_snd_toks_le (s : PState) (es : List TokenType) :
    (expect s es).2.toks.length ≤ s.toks.length :=
  expect_eq_toks_le s es _ _ rfl

theorem parseIdent_snd_toks_le (s : PState) (w : String) :
    (parseIdent s w).2.toks.length ≤ s.toks.length :=
  parseIdent_eq_toks_le s w _ _ rfl

theorem assignFirstToken_snd_toks (s : PState) :
    (assignFirstToken s).2.toks = s.toks := by
  simp only [assignFirstToken]
  split <;> simp [emit]

theorem assignNameIf_snd_toks (c : Bool) (tgt : Expr) (s : PState) (sp : Span) :
    (assignNameIf c tgt s sp).2.toks = s.toks := by
  simp only [assignNameIf]
  split
  · cases tgt <;> simp [assignName, emit]
  · rfl

theorem fnSkipSig_snd_toks (s : PState) : (fnSkipSig s).2.toks = s.toks := by
  simp only [fnSkipSig]
  split
  · split
    · rfl
    · split <;> simp [emit]
  · rfl

theorem fnSkipSig_toks_len (s : PState) :
    (fnSkipSig s).2.toks.length = s.toks.length := by
  rw [fnSkipSig_snd_toks]

theorem fnRetType_snd_toks_le (s : PState) :
    (fnRetType s).2.toks.length ≤ s.toks.length := by
  simp only [fnRetType]
  split
  · split
    · refine le_trans ?_ (pnext_snd_toks_le s)
      split
      · rename_i ty s2 hq
        exact parseIdent_eq_toks_le _ _ _ _ hq
      · rename_i s2 hq
        split
        · split <;> exact parseIdent_eq_toks_le _ _ _ _ hq
        · exact parseIdent_eq_toks_le _ _ _ _ hq
    · exact le_rfl
  · exact le_rfl

/-- Joint statement: an `ok` result of any fueled parser routine never has
more remaining tokens than its input state. -/
def TokMono (fuel : Nat) : Prop :=
  (∀ s a s', parsePrimary fuel s = .ok a s' → s'.toks.length ≤ s.toks.length) ∧
  (∀ s fs a s', constructFields fuel s fs = .ok a s' → s'.toks.length ≤ s.toks.length) ∧
  (∀ lhs mp s a s', parseBinexp fuel lhs mp s = .ok a s' → s'.toks.length ≤ s.toks.length) ∧
  (∀ rhs op s a s', binexpClimb fuel rhs op s = .ok a s' → s'.toks.length ≤ s.toks.length) ∧
  (∀ s a s', parseAtom fuel s = .ok a s' → s'.toks.length ≤ s.toks.length) ∧
  (∀ s a s', parseExpression fuel s = .ok a s' → s'.toks.length ≤ s.toks.length) ∧
  (∀ tgt s a s', parseAssign fuel tgt s = .ok a s' → s'.toks.length ≤ s.toks.length) ∧
  (∀ s nm fs a s', structBody fuel s nm fs = .ok a s' → s'.toks.length ≤ s.toks.length) ∧
  (∀ s args a s', fnArgs fuel s args = .ok a s' → s'.toks.length ≤ s.toks.length) ∧
  (∀ s b a s', fnBody fuel s b = .ok a s' → s'.toks.length ≤ s.toks.length) ∧
  (∀ nm s a s', parseVarDecl fuel nm s = .ok a s' → s'.toks.length ≤ s.toks.length) ∧
  (∀ s acc a s', parseLoop fuel s acc = .ok a s' → s'.toks.length ≤ s.toks.length) ∧
  (∀ tgt nm args s a s', fnAfterSig fuel tgt nm args s = .ok a s' →
    s'.toks.length ≤ s.toks.length)

theorem tokMono : ∀ fuel, TokMono fuel := by
  intro fuel
  induction fuel with
  | zero =>
    refine ⟨?_, ?_, ?_, ?_, ?_, ?_, ?_, ?_, ?_, ?_, ?_, ?_, ?_⟩ <;>
      intro _ _ _ <;> intros <;> simp_all [parsePrimary, constructFields,
        parseBinexp, binexpClimb, parseAtom, parseExpression, parseAssign,
        structBody, fnArgs, fnBody, parseVarDecl, parseLoop, fnAfterSig]
  | succ f ih =>
    obtain ⟨ihP, ihCF, ihBE, ihBC, ihAt, ihEx, ihAs, ihSB, ihFA, ihFB, ihVD,
      ihPL, ihAF⟩ := ih
    refine ⟨?_, ?_, ?_, ?_, ?_, ?_, ?_, ?_, ?_, ?_, ?_, ?_, ?_⟩
    · -- parsePrimary
      intro s0 a s' h
      simp only [parsePrimary] at h
      have hcm : (countMinus s0.toks 0).2.length ≤ s0.toks.length :=
        countMinus_toks_le _ _
      split at h
      · cases h; exact hcm
      · split at h
        · -- num
          cases h
          exact le_trans (pnext_snd_toks_le _) hcm
        · -- identifier
          split at h
          · -- peekOne s1 = some nt
            split at h
            · -- lbrace
              cases hq : constructFields f
                  ((pnext ((pnext { s0 with toks := (countMinus s0.toks 0).2 }).2)).2) [] with
              | ok fields s3 =>
                rw [hq] at h
                simp only at h
                cases h
                exact le_trans (expect_snd_toks_le _ _)
                  (le_trans (ihCF _ _ _ _ hq)
                    (le_trans (pnext_snd_toks_le _)
                      (le_trans (pnext_snd_toks_le _) hcm)))
              | panic => simp [hq] at h
              | fuelOut => simp [hq] at h
            · split at h
              · -- dot
                split at h
                · -- parseIdent some
                  rename_i hqi
                  cases h
                  exact le_trans (parseIdent_eq_toks_le _ _ _ _ hqi)
                    (le_trans (pnext_snd_toks_le _)
                      (le_trans (pnext_snd_toks_le _) hcm))
                · -- parseIdent none
                  rename_i hqi
                  cases h
                  exact le_trans (parseIdent_eq_toks_le _ _ _ _ hqi)
                    (le_trans (pnext_snd_toks_le _)
                      (le_trans (pnext_snd_toks_le _) hcm))
              · -- plain var
                cases h
                exact le_trans (pnext_snd_toks_le _) hcm
          · -- peekOne s1 = none
            cases h
            exact le_trans (pnext_snd_toks_le _) hcm
        · -- charLit
          cases h
          exact le_trans (pnext_snd_toks_le _) hcm
        · -- stringLit
          cases h
          exact le_trans (pnext_snd_toks_le _) hcm
        · -- lparen
          cases hq : parseAtom f
              ((pnext { s0 with toks := (countMinus s0.toks 0).2 }).2) with
          | ok e s2 =>
            rw [hq] at h
            simp only at h
            split at h
            · split at h
              · cases h
                simp only [emit_toks]
                exact le_trans (ihAt _ _ _ hq)
                  (le_trans (pnext_snd_toks_le _) hcm)
              · cases h
                exact le_trans (pnext_snd_toks_le _)
                  (le_trans (ihAt _ _ _ hq)
                    (le_trans (pnext_snd_toks_le _) hcm))
            · cases h
              simp only [emit_toks]
              exact le_trans (ihAt _ _ _ hq)
                (le_trans (pnext_snd_toks_le _) hcm)
          | panic => simp [hq] at h
          | fuelOut => simp [hq] at h
        · -- other token kinds
          cases h
          exact hcm
    · -- constructFields
      intro s fs a s' h
      simp only [constructFields] at h
      split at h
      · cases h; exact le_rfl
      · split at h
        · cases h; exact le_rfl
        · rcases hq1 : expect s [TokenType.dot] with ⟨o1, s1⟩
          rw [hq1] at h
          cases o1 with
          | none => simp only at h; cases h; exact expect_eq_toks_le _ _ _ _ hq1
          | some t1 =>
            simp only at h
            rcases hq2 : parseIdent s1 "a field name" with ⟨o2, s2⟩
            rw [hq2] at h
            cases o2 with
            | none =>
              simp only at h; cases h
              exact le_trans (parseIdent_eq_toks_le _ _ _ _ hq2)
                (expect_eq_toks_le _ _ _ _ hq1)
            | some fname =>
              simp only at h
              rcases hq3 : expect s2 [TokenType.equals] with ⟨o3, s3⟩
              rw [hq3] at h
              cases o3 with
              | none =>
                simp only at h; cases h
                exact le_trans (expect_eq_toks_le _ _ _ _ hq3)
                  (le_trans (parseIdent_eq_toks_le _ _ _ _ hq2)
                    (expect_eq_toks_le _ _ _ _ hq1))
              | some t3 =>
                simp only at h
                cases hq4 : parseAtom f s3 with
                | ok v s4 =>
                  rw [hq4] at h
                  simp only at h
                  exact le_trans (ihCF _ _ _ _ h)
                    (le_trans (ihAt _ _ _ hq4)
                      (le_trans (expect_eq_toks_le _ _ _ _ hq3)
                        (le_trans (parseIdent_eq_toks_le _ _ _ _ hq2)
                          (expect_eq_toks_le _ _ _ _ hq1))))
                | panic => simp [hq4] at h
                | fuelOut => simp [hq4] at h
    · -- parseBinexp
      intro lhs mp s a s' h
      simp only [parseBinexp] at h
      split at h
      · cases h; exact le_rfl
      · split at h
        · cases h; exact le_rfl
        · split at h
          · cases h; exact le_rfl
          · split at h
            · rename_i oRhs s2 hq1
              cases oRhs with
              | some p =>
                simp only at h
                split at h
                · rename_i rhs2 s3 hq2
                  split at h
                  · exact le_trans (ihBE _ _ _ _ _ h)
                      (le_trans (ihBC _ _ _ _ _ hq2)
                        (le_trans (ihP _ _ _ hq1) (pnext_snd_toks_le _)))
                  · exact PRes.noConfusion h
                · exact PRes.noConfusion h
                · exact PRes.noConfusion h
              | none =>
                simp only at h
                split at h
                · rename_i rhs2 s3 hq2
                  split at h
                  · refine le_trans (ihBE _ _ _ _ _ h) ?_
                    refine le_trans ?_ (le_trans (ihP _ _ _ hq1) (pnext_snd_toks_le _))
                    have := ihBC _ _ _ _ _ hq2
                    simpa [emit] using this
                  · exact PRes.noConfusion h
                · exact PRes.noConfusion h
                · exact PRes.noConfusion h
            · exact PRes.noConfusion h
            · exact PRes.noConfusion h
    · -- binexpClimb
      intro rhs op s a s' h
      simp only [binexpClimb] at h
      split at h
      · cases h; exact le_rfl
      · split at h
        · cases h; exact le_rfl
        · split at h
          · cases h; exact le_rfl
          · split at h
            · rename_i rhs2 s1 hq1
              exact le_trans (ihBC _ _ _ _ _ h) (ihBE _ _ _ _ _ hq1)
            · exact PRes.noConfusion h
            · exact PRes.noConfusion h
    · -- parseAtom
      intro s a s' h
      simp only [parseAtom] at h
      split at h
      · rename_i primary s1 hq1
        split at h
        · cases h; exact ihP _ _ _ hq1
        · split at h
          · exact le_trans (ihBE _ _ _ _ _ h) (ihP _ _ _ hq1)
          · cases h; exact ihP _ _ _ hq1
      · rename_i s1 hq1
        split at h
        · cases h
          refine le_trans ?_ (ihP _ _ _ hq1)
          simp only [emit_toks]
          exact pnext_snd_toks_le _
        · cases h
          refine le_trans ?_ (ihP _ _ _ hq1)
          simp [emit]
      · exact PRes.noConfusion h
      · exact PRes.noConfusion h
    · -- parseExpression
      intro s a s' h
      simp only [parseExpression] at h
      split at h
      · rename_i s1 hq1
        split at h
        · split at h
          · split at h
            · cases h
              exact le_trans (pnext_snd_toks_le _)
                (le_trans (pnext_snd_toks_le _) (ihP _ _ _ hq1))
            · split at h
              · rename_i v s3 hq2
                cases h
                exact le_trans (expect_snd_toks_le _ _)
                  (le_trans (ihAt _ _ _ hq2)
                    (le_trans (pnext_snd_toks_le _) (ihP _ _ _ hq1)))
              · exact PRes.noConfusion h
              · exact PRes.noConfusion h
          · cases h
            refine le_trans ?_ (ihP _ _ _ hq1)
            simp only [emit_toks]
            exact pnext_snd_toks_le _
        · cases h
          refine le_trans ?_ (ihP _ _ _ hq1)
          simp [emit]
      · rename_i primary s1 hq1
        split at h
        · cases h
          refine le_trans ?_ (ihP _ _ _ hq1)
          simp [emit]
        · split at h
          · exact le_trans (ihBE _ _ _ _ _ h) (ihP _ _ _ hq1)
          · exact le_trans (ihAs _ _ _ _ h) (ihP _ _ _ hq1)
          · split at h
            · exact le_trans (ihVD _ _ _ _ h) (ihP _ _ _ hq1)
            · cases h
              refine le_trans ?_ (ihP _ _ _ hq1)
              simp [emit]
          · exact PRes.noConfusion h
      · exact PRes.noConfusion h
      · exact PRes.noConfusion h
    · -- parseAssign
      intro tgt s a s' h
      simp only [parseAssign] at h
      split at h
      · exact PRes.noConfusion h
      · rename_i eqT s1 hq0
        have hs1 : s1.toks.length ≤ s.toks.length := pnext_eq_toks_le _ _ _ hq0
        have hs3 : ∀ (c : Bool) (sp : Span),
            (assignNameIf c tgt (assignFirstToken s1).2 sp).2.toks.length ≤
              s.toks.length := by
          intro c sp
          rw [assignNameIf_snd_toks, assignFirstToken_snd_toks]
          exact hs1
        split at h
        · -- struct arm
          split at h
          · rename_i s5 hq1
            exact le_trans (ihSB _ _ _ _ _ h)
              (le_trans (expect_eq_toks_le _ _ _ _ hq1)
                (le_trans (pnext_snd_toks_le _) (hs3 _ _)))
          · rename_i s5 hq1
            have hs5 : s5.toks.length ≤ s.toks.length :=
              le_trans (expect_eq_toks_le _ _ _ _ hq1)
                (le_trans (pnext_snd_toks_le _) (hs3 _ _))
            split at h
            · exact le_trans (ihSB _ _ _ _ _ h) hs5
            · split at h
              · split at h
                · cases h; exact hs5
                · exact le_trans (ihSB _ _ _ _ _ h) hs5
              · cases h; exact hs5
        · split at h
          · -- lparen arm
            have hs4 : (pnext (assignNameIf ((assignFirstToken s1).1.kind ==
                TokenType.kwStruct || (assignFirstToken s1).1.kind ==
                TokenType.lparen) tgt (assignFirstToken s1).2
                eqT.span).2).2.toks.length ≤ s.toks.length :=
              le_trans (pnext_snd_toks_le _) (hs3 _ _)
            split at h
            · exact le_trans (ihAF _ _ _ _ _ _ h)
                (le_trans (le_of_eq (fnSkipSig_toks_len _)) hs4)
            · split at h
              · rename_i s6 hqa
                cases h
                exact le_trans (ihFA _ _ _ _ hqa)
                  (le_trans (le_of_eq (fnSkipSig_toks_len _)) hs4)
              · rename_i args s6 hqa
                exact le_trans (ihAF _ _ _ _ _ _ h)
                  (le_trans (ihFA _ _ _ _ hqa)
                    (le_trans (le_of_eq (fnSkipSig_toks_len _)) hs4))
              · exact PRes.noConfusion h
              · exact PRes.noConfusion h
          · split at h
            · -- rparen arm
              split at h
              · rename_i t s6 hq2
                have hs6 : s6.toks.length ≤ s.toks.length :=
                  le_trans (expect_eq_toks_le _ _ _ _ hq2)
                    (le_trans (le_of_eq (congrArg List.length (emit_toks _ _)))
                      (le_trans (pnext_snd_toks_le _) (hs3 _ _)))
                split at h
                · cases h; exact hs6
                · cases h; exact le_trans (skipUntil_toks_le _ _) hs6
              · rename_i s6 hq2
                cases h
                refine le_trans (skipUntil_toks_le _ _) ?_
                exact le_trans (expect_eq_toks_le _ _ _ _ hq2)
                  (le_trans (le_of_eq (congrArg List.length (emit_toks _ _)))
                    (le_trans (pnext_snd_toks_le _) (hs3 _ _)))
            · -- plain assignment arm
              split at h
              · rename_i v s4 hqv
                cases h
                exact le_trans (expect_snd_toks_le _ _)
                  (le_trans (ihAt _ _ _ hqv) (hs3 _ _))
              · exact PRes.noConfusion h
              · exact PRes.noConfusion h
    · -- structBody
      intro s nm fs a s' h
      simp only [structBody] at h
      split at h
      · cases h; simp [emit]
      · split at h
        · cases h; exact pnext_snd_toks_le _
        · split at h
          · rename_i s1 hq1
            cases h
            exact le_trans (skipUntil_toks_le _ _) (parseIdentType_eq_toks_le _ _ _ hq1)
          · rename_i nt s1 hq1
            split at h
            · rename_i t2 s2 hq2
              split at h
              · cases h
                exact le_trans (expect_eq_toks_le _ _ _ _ hq2)
                  (parseIdentType_eq_toks_le _ _ _ hq1)
              · exact le_trans (ihSB _ _ _ _ _ h)
                  (le_trans (expect_eq_toks_le _ _ _ _ hq2)
                    (parseIdentType_eq_toks_le _ _ _ hq1))
            · rename_i s2 hq2
              cases h
              exact le_trans (expect_eq_toks_le _ _ _ _ hq2)
                (parseIdentType_eq_toks_le _ _ _ hq1)
    · -- fnArgs
      intro s args a s' h
      simp only [fnArgs] at h
      split at h
      · cases h; exact le_rfl
      · split at h
        · cases h; exact pnext_snd_toks_le _
        · split at h
          · rename_i s1 hq1
            cases h
            exact parseIdentType_eq_toks_le _ _ _ hq1
          · rename_i nt s1 hq1
            split at h
            · rename_i t2 s2 hq2
              split at h
              · cases h
                exact le_trans (expect_eq_toks_le _ _ _ _ hq2)
                  (parseIdentType_eq_toks_le _ _ _ hq1)
              · exact le_trans (ihFA _ _ _ _ h)
                  (le_trans (expect_eq_toks_le _ _ _ _ hq2)
                    (parseIdentType_eq_toks_le _ _ _ hq1))
            · rename_i s2 hq2
              split at h
              · split at h
                · exact le_trans (ihFA _ _ _ _ h)
                    (le_trans (expect_eq_toks_le _ _ _ _ hq2)
                      (parseIdentType_eq_toks_le _ _ _ hq1))
                · cases h
                  exact le_trans (expect_eq_toks_le _ _ _ _ hq2)
                    (parseIdentType_eq_toks_le _ _ _ hq1)
              · cases h
                exact le_trans (expect_eq_toks_le _ _ _ _ hq2)
                  (parseIdentType_eq_toks_le _ _ _ hq1)
    · -- fnBody
      intro s b a s' h
      simp only [fnBody] at h
      split at h
      · cases h; exact le_rfl
      · split at h
        · cases h; exact le_rfl
        · split at h
          · rename_i e s1 hq1
            exact le_trans (ihFB _ _ _ _ h) (ihEx _ _ _ hq1)
          · exact PRes.noConfusion h
          · exact PRes.noConfusion h
    · -- parseVarDecl
      intro nm s a s' h
      simp only [parseVarDecl] at h
      split at h
      · rename_i s2 hq1
        cases h
        exact le_trans (parseIdent_eq_toks_le _ _ _ _ hq1) (pnext_snd_toks_le _)
      · rename_i ty s2 hq1
        split at h
        · rename_i t s3 hq2
          split at h
          · split at h
            · rename_i v s4 hq3
              cases h
              exact le_trans (expect_snd_toks_le _ _)
                (le_trans (ihAt _ _ _ hq3)
                  (le_trans (expect_eq_toks_le _ _ _ _ hq2)
                    (le_trans (parseIdent_eq_toks_le _ _ _ _ hq1)
                      (pnext_snd_toks_le _))))
            · exact PRes.noConfusion h
            · exact PRes.noConfusion h
          · cases h
            exact le_trans (expect_eq_toks_le _ _ _ _ hq2)
              (le_trans (parseIdent_eq_toks_le _ _ _ _ hq1) (pnext_snd_toks_le _))
        · rename_i s3 hq2
          cases h
          exact le_trans (expect_eq_toks_le _ _ _ _ hq2)
            (le_trans (parseIdent_eq_toks_le _ _ _ _ hq1) (pnext_snd_toks_le _))
    · -- parseLoop
      intro s acc a s' h
      simp only [parseLoop] at h
      split at h
      · cases h; exact le_rfl
      · split at h
        · rename_i e s1 hq1
          exact le_trans (ihPL _ _ _ _ h) (ihEx _ _ _ hq1)
        · exact PRes.noConfusion h
        · exact PRes.noConfusion h
    · -- fnAfterSig
      intro tgt nm args s a s' h
      simp only [fnAfterSig] at h
      split at h
      · cases h
        exact fnRetType_snd_toks_le _
      · rename_i retType hqrt
        split at h
        · rename_i st s8 hq2
          split at h
          · cases h
            exact le_trans (expect_eq_toks_le _ _ _ _ hq2) (fnRetType_snd_toks_le _)
          · split at h
            · rename_i body s9 hq3
              cases h
              exact le_trans (expect_snd_toks_le _ _)
                (le_trans (ihFB _ _ _ _ hq3)
                  (le_trans (expect_eq_toks_le _ _ _ _ hq2)
                    (fnRetType_snd_toks_le _)))
            · exact PRes.noConfusion h
            · exact PRes.noConfusion h
        · rename_i s8 hq2
          cases h
          exact le_trans (expect_eq_toks_le _ _ _ _ hq2) (fnRetType_snd_toks_le _)

/-- Projections of `tokMono` for direct use. -/
theorem parsePrimary_toks_le (fuel : Nat) (s : PState) (a : Option Expr)
    (s' : PState) (h : parsePrimary fuel s = .ok a s') :
    s'.toks.length ≤ s.toks.length :=
  (tokMono fuel).1 s a s' h

/-- The helper `countMinus` either leaves the tokens unchanged or consumes at least
one leading minus. -/
theorem countMinus_cases (l : List Token) (n : Nat) :
    (countMinus l n).2 = l ∨ (countMinus l n).2.length < l.length := by
  cases l with
  | nil => left; simp [countMinus]
  | cons t rest =>
    rw [countMinus.eq_def]
    simp only
    split
    · split
      · right
        exact Nat.lt_succ_of_le (countMinus_toks_le rest _)
      · left; rfl
    · left; rfl

/-- A successful `parse_primary` yielding an expression always consumed at
least one token. -/
theorem parsePrimary_some_lt (fuel : Nat) (s0 : PState) (e : Expr) (s' : PState)
    (h : parsePrimary fuel s0 = .ok (some e) s') :
    s'.toks.length < s0.toks.length := by
  cases fuel with
  | zero => simp [parsePrimary] at h
  | succ f =>
    obtain ⟨ihP, ihCF, ihBE, ihBC, ihAt, ihEx, ihAs, ihSB, ihFA, ihFB, ihVD,
      ihPL, ihAF⟩ := tokMono f
    simp only [parsePrimary] at h
    have hcm : (countMinus s0.toks 0).2.length ≤ s0.toks.length :=
      countMinus_toks_le _ _
    split at h
    · cases h
    · rename_i pt hpk
      have hlt : (pnext { s0 with toks := (countMinus s0.toks 0).2 }).2.toks.length <
          s0.toks.length :=
        lt_of_lt_of_le (pnext_snd_toks_lt _ (peekOne_some_toks_ne _ _ hpk)) hcm
      split at h
      · cases h; exact hlt
      · split at h
        · split at h
          · split at h
            · rename_i fields s3 hq
              cases h
              exact lt_of_le_of_lt (expect_snd_toks_le _ _)
                (lt_of_le_of_lt (ihCF _ _ _ _ hq)
                  (lt_of_le_of_lt (pnext_snd_toks_le _) hlt))
            · exact PRes.noConfusion h
            · exact PRes.noConfusion h
          · split at h
            · split at h
              · rename_i hqi
                cases h
                exact lt_of_le_of_lt (parseIdent_eq_toks_le _ _ _ _ hqi)
                  (lt_of_le_of_lt (pnext_snd_toks_le _) hlt)
              · cases h
            · cases h; exact hlt
        · cases h; exact hlt
      · cases h; exact hlt
      · cases h; exact hlt
      · split at h
        · rename_i e2 s2 hq
          split at h
          · split at h
            · cases h
              simp only [emit_toks]
              exact lt_of_le_of_lt (ihAt _ _ _ hq) hlt
            · cases h
              exact lt_of_le_of_lt (pnext_snd_toks_le _)
                (lt_of_le_of_lt (ihAt _ _ _ hq) hlt)
          · cases h
            simp only [emit_toks]
            exact lt_of_le_of_lt (ihAt _ _ _ hq) hlt
        · exact PRes.noConfusion h
        · exact PRes.noConfusion h
      · cases h

/-- A `parse_primary` returning no expression either consumed nothing or
strictly consumed tokens. -/
theorem parsePrimary_none_cases (fuel : Nat) (s0 : PState) (s' : PState)
    (h : parsePrimary fuel s0 = .ok none s') :
    s'.toks.length < s0.toks.length ∨ s'.toks = s0.toks := by
  cases fuel with
  | zero => simp [parsePrimary] at h
  | succ f =>
    simp only [parsePrimary] at h
    have hcm : (countMinus s0.toks 0).2.length ≤ s0.toks.length :=
      countMinus_toks_le _ _
    split at h
    · cases h
      rcases countMinus_cases s0.toks 0 with hc | hc
      · right; exact hc
      · left; exact hc
    · rename_i pt hpk
      have hlt : (pnext { s0 with toks := (countMinus s0.toks 0).2 }).2.toks.length <
          s0.toks.length :=
        lt_of_lt_of_le (pnext_snd_toks_lt _ (peekOne_some_toks_ne _ _ hpk)) hcm
      split at h
      · cases h
      · -- identifier
        split at h
        · -- a token follows the identifier
          split at h
          · -- `{`: struct construction, always yields an expression
            split at h
            · cases h
            · exact PRes.noConfusion h
            · exact PRes.noConfusion h
          · split at h
            · -- `.`: field access
              split at h
              · cases h
              · rename_i hqi
                cases h
                left
                exact lt_of_le_of_lt (parseIdent_eq_toks_le _ _ _ _ hqi)
                  (lt_of_le_of_lt (pnext_snd_toks_le _) hlt)
            · cases h
        · cases h
      · cases h
      · cases h
      · -- lparen
        split at h
        · split at h
          · split at h
            · cases h
            · cases h
          · cases h
        · exact PRes.noConfusion h
        · exact PRes.noConfusion h
      · cases h
        rcases countMinus_cases s0.toks 0 with hc | hc
        · right; exact hc
        · left; exact hc

/-- With a pending token, `parse_expression` either consumes at least one
token or panics/fuels out. -/
theorem parseExpression_ok_lt (fuel : Nat) (s : PState) (e : Expr) (s' : PState)
    (hne : s.toks ≠ []) (h : parseExpression fuel s = .ok e s') :
    s'.toks.length < s.toks.length := by
  cases fuel with
  | zero => simp [parseExpression] at h
  | succ f =>
    obtain ⟨ihP, ihCF, ihBE, ihBC, ihAt, ihEx, ihAs, ihSB, ihFA, ihFB, ihVD,
      ihPL, ihAF⟩ := tokMono f
    simp only [parseExpression] at h
    split at h
    · -- parse_primary returned none
      rename_i s1 hq1
      rcases parsePrimary_none_cases f s s1 hq1 with hlt1 | heq1
      · -- already strict: everything after is monotone
        split at h
        · split at h
          · split at h
            · cases h
              exact lt_of_le_of_lt (pnext_snd_toks_le _)
                (lt_of_le_of_lt (pnext_snd_toks_le _) hlt1)
            · split at h
              · rename_i v s3 hq2
                cases h
                exact lt_of_le_of_lt (expect_snd_toks_le _ _)
                  (lt_of_le_of_lt (ihAt _ _ _ hq2)
                    (lt_of_le_of_lt (pnext_snd_toks_le _) hlt1))
              · exact PRes.noConfusion h
              · exact PRes.noConfusion h
          · cases h
            simp only [emit_toks]
            exact lt_of_le_of_lt (pnext_snd_toks_le _) hlt1
        · cases h
          simp only [emit_toks]
          exact hlt1
      · -- nothing consumed: the peeked token is still there
        have hne1 : s1.toks ≠ [] := by rw [heq1]; exact hne
        have hlen1 : s1.toks.length = s.toks.length := by rw [heq1]
        split at h
        · rename_i t hpk
          have hlt2 : (pnext s1).2.toks.length < s.toks.length := by
            rw [← hlen1]
            exact pnext_snd_toks_lt _ hne1
          split at h
          · split at h
            · cases h
              exact lt_of_le_of_lt (pnext_snd_toks_le _) hlt2
            · split at h
              · rename_i v s3 hq2
                cases h
                exact lt_of_le_of_lt (expect_snd_toks_le _ _)
                  (lt_of_le_of_lt (ihAt _ _ _ hq2) hlt2)
              · exact PRes.noConfusion h
              · exact PRes.noConfusion h
          · cases h
            simp only [emit_toks]
            exact hlt2
        · rename_i hpk
          exact absurd (by simpa [peekOne, List.head?_eq_none_iff] using hpk) hne1
    · -- parse_primary returned an expression: strict already
      rename_i primary s1 hq1
      have hlt1 : s1.toks.length < s.toks.length :=
        parsePrimary_some_lt f s primary s1 hq1
      split at h
      · cases h
        simp only [emit_toks]
        exact hlt1
      · split at h
        · exact lt_of_le_of_lt (ihBE _ _ _ _ _ h) hlt1
        · exact lt_of_le_of_lt (ihAs _ _ _ _ h) hlt1
        · split at h
          · exact lt_of_le_of_lt (ihVD _ _ _ _ h) hlt1
          · cases h
            simp only [emit_toks]
            exact hlt1
        · exact PRes.noConfusion h
    · exact PRes.noConfusion h
    · exact PRes.noConfusion h

/-- When the pending token is an operator of sufficient precedence,
`parse_binexp` consumes at least one token on success. -/
theorem parseBinexp_ok_lt (fuel : Nat) (lhs : Expr) (minPrec : Nat) (s : PState)
    (t : Token) (p : Nat) (e : Expr) (s' : PState)
    (hpk : peekOne s = some t) (hgp : getPrec t = some p) (hge : minPrec ≤ p)
    (h : parseBinexp fuel lhs minPrec s = .ok e s') :
    s'.toks.length < s.toks.length := by
  cases fuel with
  | zero => simp [parseBinexp] at h
  | succ f =>
    obtain ⟨ihP, ihCF, ihBE, ihBC, ihAt, ihEx, ihAs, ihSB, ihFA, ihFB, ihVD,
      ihPL, ihAF⟩ := tokMono f
    simp only [parseBinexp] at h
    rw [hpk] at h
    simp only at h
    rw [hgp] at h
    simp only at h
    rw [if_neg (by omega)] at h
    have hlt : (pnext s).2.toks.length < s.toks.length :=
      pnext_snd_toks_lt _ (peekOne_some_toks_ne _ _ hpk)
    split at h
    · rename_i oRhs s2 hq1
      cases oRhs with
      | some pr =>
        simp only at h
        split at h
        · rename_i rhs2 s3 hq2
          split at h
          · exact lt_of_le_of_lt (ihBE _ _ _ _ _ h)
              (lt_of_le_of_lt (ihBC _ _ _ _ _ hq2)
                (lt_of_le_of_lt (ihP _ _ _ hq1) hlt))
          · exact PRes.noConfusion h
        · exact PRes.noConfusion h
        · exact PRes.noConfusion h
      | none =>
        simp only at h
        split at h
        · rename_i rhs2 s3 hq2
          split at h
          · refine lt_of_le_of_lt (ihBE _ _ _ _ _ h) ?_
            refine lt_of_le_of_lt ?_ (lt_of_le_of_lt (ihP _ _ _ hq1) hlt)
            have := ihBC _ _ _ _ _ hq2
            simpa [emit] using this
          · exact PRes.noConfusion h
        · exact PRes.noConfusion h
        · exact PRes.noConfusion h
    · exact PRes.noConfusion h
    · exact PRes.noConfusion h

theorem pnext_some_lt (s : PState) (t : Token) (s' : PState)
    (h : pnext s = (some t, s')) : s'.toks.length < s.toks.length := by
  cases hs : s.toks with
  | nil => rw [pnext, hs] at h; cases h
  | cons t0 r =>
    rw [pnext.eq_def, hs] at h
    simp only at h
    cases h
    simp [hs]

/-- Joint statement: with fuel at least eight times the number of remaining
tokens plus a per-routine constant, no routine runs out of fuel. -/
def FuelOk (fuel : Nat) : Prop :=
  (∀ s, 8 * s.toks.length + 1 ≤ fuel → parsePrimary fuel s ≠ .fuelOut) ∧
  (∀ s fs, 8 * s.toks.length + 1 ≤ fuel → constructFields fuel s fs ≠ .fuelOut) ∧
  (∀ lhs mp s, 8 * s.toks.length + 1 ≤ fuel → parseBinexp fuel lhs mp s ≠ .fuelOut) ∧
  (∀ rhs op s, 8 * s.toks.length + 2 ≤ fuel → binexpClimb fuel rhs op s ≠ .fuelOut) ∧
  (∀ s, 8 * s.toks.length + 2 ≤ fuel → parseAtom fuel s ≠ .fuelOut) ∧
  (∀ s, 8 * s.toks.length + 3 ≤ fuel → parseExpression fuel s ≠ .fuelOut) ∧
  (∀ tgt s, 8 * s.toks.length + 1 ≤ fuel → parseAssign fuel tgt s ≠ .fuelOut) ∧
  (∀ s nm fs, 8 * s.toks.length + 1 ≤ fuel → structBody fuel s nm fs ≠ .fuelOut) ∧
  (∀ s args, 8 * s.toks.length + 1 ≤ fuel → fnArgs fuel s args ≠ .fuelOut) ∧
  (∀ s b, 8 * s.toks.length + 4 ≤ fuel → fnBody fuel s b ≠ .fuelOut) ∧
  (∀ nm s, 8 * s.toks.length + 1 ≤ fuel → parseVarDecl fuel nm s ≠ .fuelOut) ∧
  (∀ s acc, 8 * s.toks.length + 4 ≤ fuel → parseLoop fuel s acc ≠ .fuelOut) ∧
  (∀ tgt nm args s, 8 * s.toks.length + 1 ≤ fuel →
    fnAfterSig fuel tgt nm args s ≠ .fuelOut)

theorem fuelOk : ∀ fuel, FuelOk fuel := by
  intro fuel
  induction fuel with
  | zero =>
    refine ⟨?_, ?_, ?_, ?_, ?_, ?_, ?_, ?_, ?_, ?_, ?_, ?_, ?_⟩ <;>
      intro _ <;> intros <;> omega
  | succ f ih =>
    obtain ⟨fP, fCF, fBE, fBC, fAt, fEx, fAs, fSB, fFA, fFB, fVD, fPL, fAF⟩ := ih
    obtain ⟨mP, mCF, mBE, mBC, mAt, mEx, mAs, mSB, mFA, mFB, mVD, mPL, mAF⟩ :=
      tokMono f
    refine ⟨?_, ?_, ?_, ?_, ?_, ?_, ?_, ?_, ?_, ?_, ?_, ?_, ?_⟩
    · -- parsePrimary
      intro s0 hb hcon
      simp only [parsePrimary] at hcon
      have hcm : (countMinus s0.toks 0).2.length ≤ s0.toks.length :=
        countMinus_toks_le _ _
      split at hcon
      · exact PRes.noConfusion hcon
      · rename_i pt hpk
        have hlt : (pnext { s0 with toks := (countMinus s0.toks 0).2 }).2.toks.length <
            s0.toks.length :=
          lt_of_lt_of_le (pnext_snd_toks_lt _ (peekOne_some_toks_ne _ _ hpk)) hcm
        split at hcon
        · exact PRes.noConfusion hcon
        · -- identifier
          split at hcon
          · split at hcon
            · -- lbrace: constructFields call
              split at hcon
              · exact PRes.noConfusion hcon
              · exact PRes.noConfusion hcon
              · rename_i hq
                have h2 : (pnext (pnext { s0 with
                    toks := (countMinus s0.toks 0).2 }).2).2.toks.length <
                    s0.toks.length :=
                  lt_of_le_of_lt (pnext_snd_toks_le _) hlt
                exact fCF _ [] (by omega) hq
            · split at hcon
              · split at hcon
                · exact PRes.noConfusion hcon
                · exact PRes.noConfusion hcon
              · exact PRes.noConfusion hcon
          · exact PRes.noConfusion hcon
        · exact PRes.noConfusion hcon
        · exact PRes.noConfusion hcon
        · -- lparen: parseAtom call
          split at hcon
          · split at hcon
            · split at hcon
              · exact PRes.noConfusion hcon
              · exact PRes.noConfusion hcon
            · exact PRes.noConfusion hcon
          · exact PRes.noConfusion hcon
          · rename_i hq
            exact fAt _ (by omega) hq
        · exact PRes.noConfusion hcon
    · -- constructFields
      intro s fs hb hcon
      simp only [constructFields] at hcon
      split at hcon
      · exact PRes.noConfusion hcon
      · split at hcon
        · exact PRes.noConfusion hcon
        · split at hcon
          · exact PRes.noConfusion hcon
          · rename_i t1 s1 hq1
            have h1 : s1.toks.length < s.toks.length :=
              expect_some_toks_lt _ _ _ _ hq1
            split at hcon
            · exact PRes.noConfusion hcon
            · rename_i fname s2 hq2
              have h2 : s2.toks.length < s1.toks.length :=
                parseIdent_some_toks_lt _ _ _ _ hq2
              split at hcon
              · exact PRes.noConfusion hcon
              · rename_i t3 s3 hq3
                have h3 : s3.toks.length < s2.toks.length :=
                  expect_some_toks_lt _ _ _ _ hq3
                split at hcon
                · rename_i v s4 hq4
                  have h4 : s4.toks.length ≤ s3.toks.length := mAt _ _ _ hq4
                  exact fCF _ _ (by omega) hcon
                · exact PRes.noConfusion hcon
                · rename_i hq4
                  exact fAt _ (by omega) hq4
    · -- parseBinexp
      intro lhs mp s hb hcon
      simp only [parseBinexp] at hcon
      split at hcon
      · exact PRes.noConfusion hcon
      · rename_i t hpk
        split at hcon
        · exact PRes.noConfusion hcon
        · rename_i prec hgp
          split at hcon
          · exact PRes.noConfusion hcon
          · have hlt : (pnext s).2.toks.length < s.toks.length :=
              pnext_snd_toks_lt _ (peekOne_some_toks_ne _ _ hpk)
            split at hcon
            · rename_i oRhs s2 hq1
              have h1 : s2.toks.length < s.toks.length :=
                lt_of_le_of_lt (mP _ _ _ hq1) hlt
              cases oRhs with
              | some pr =>
                simp only at hcon
                split at hcon
                · rename_i rhs2 s3 hq2
                  have h2 : s3.toks.length ≤ s2.toks.length := mBC _ _ _ _ _ hq2
                  split at hcon
                  · exact fBE _ _ _ (by omega) hcon
                  · exact PRes.noConfusion hcon
                · exact PRes.noConfusion hcon
                · rename_i hq2
                  exact fBC _ _ _ (by omega) hq2
              | none =>
                simp only at hcon
                split at hcon
                · rename_i rhs2 s3 hq2
                  have h2 : s3.toks.length ≤ s2.toks.length := by
                    have := mBC _ _ _ _ _ hq2
                    simpa [emit] using this
                  split at hcon
                  · exact fBE _ _ _ (by omega) hcon
                  · exact PRes.noConfusion hcon
                · exact PRes.noConfusion hcon
                · rename_i hq2
                  refine fBC _ _ _ (by simp only [emit_toks]; omega) hq2
            · exact PRes.noConfusion hcon
            · rename_i hq1
              exact fP _ (by omega) hq1
    · -- binexpClimb
      intro rhs op s hb hcon
      simp only [binexpClimb] at hcon
      split at hcon
      · exact PRes.noConfusion hcon
      · rename_i t hpk
        split at hcon
        · exact PRes.noConfusion hcon
        · rename_i prec hgp
          split at hcon
          · exact PRes.noConfusion hcon
          · rename_i hgt
            split at hcon
            · rename_i rhs2 s1 hq1
              have h1 : s1.toks.length < s.toks.length := by
                refine parseBinexp_ok_lt f rhs _ s t prec rhs2 s1 hpk hgp ?_ hq1
                split <;> omega
              exact fBC _ _ _ (by omega) hcon
            · exact PRes.noConfusion hcon
            · rename_i hq1
              exact fBE _ _ _ (by omega) hq1
    · -- parseAtom
      intro s hb hcon
      simp only [parseAtom] at hcon
      split at hcon
      · rename_i primary s1 hq1
        have h1 : s1.toks.length < s.toks.length :=
          parsePrimary_some_lt _ _ _ _ hq1
        split at hcon
        · exact PRes.noConfusion hcon
        · split at hcon
          · exact fBE _ _ _ (by omega) hcon
          · exact PRes.noConfusion hcon
      · split at hcon
        · exact PRes.noConfusion hcon
        · exact PRes.noConfusion hcon
      · exact PRes.noConfusion hcon
      · rename_i hq1
        exact fP _ (by omega) hq1
    · -- parseExpression
      intro s hb hcon
      simp only [parseExpression] at hcon
      split at hcon
      · -- primary none
        rename_i s1 hq1
        have h1 : s1.toks.length ≤ s.toks.length := mP _ _ _ hq1
        split at hcon
        · rename_i t hpk
          have h2 : (pnext s1).2.toks.length < s1.toks.length :=
            pnext_snd_toks_lt _ (peekOne_some_toks_ne _ _ hpk)
          split at hcon
          · split at hcon
            · exact PRes.noConfusion hcon
            · split at hcon
              · exact PRes.noConfusion hcon
              · exact PRes.noConfusion hcon
              · rename_i hq2
                exact fAt _ (by omega) hq2
          · exact PRes.noConfusion hcon
        · exact PRes.noConfusion hcon
      · -- primary some
        rename_i primary s1 hq1
        have h1 : s1.toks.length < s.toks.length :=
          parsePrimary_some_lt _ _ _ _ hq1
        split at hcon
        · exact PRes.noConfusion hcon
        · split at hcon
          · exact fBE _ _ _ (by omega) hcon
          · exact fAs _ _ (by omega) hcon
          · split at hcon
            · exact fVD _ _ (by omega) hcon
            · exact PRes.noConfusion hcon
          · exact PRes.noConfusion hcon
      · exact PRes.noConfusion hcon
      · rename_i hq1
        exact fP _ (by omega) hq1
    · -- parseAssign
      intro tgt s hb hcon
      simp only [parseAssign] at hcon
      split at hcon
      · exact PRes.noConfusion hcon
      · rename_i eqT s1 hq0
        have h1 : s1.toks.length < s.toks.length := pnext_some_lt _ _ _ hq0
        have h3 : ∀ (c : Bool) (sp : Span),
            (assignNameIf c tgt (assignFirstToken s1).2 sp).2.toks.length <
              s.toks.length := by
          intro c sp
          rw [assignNameIf_snd_toks, assignFirstToken_snd_toks]
          exact h1
        split at hcon
        · -- struct arm
          split at hcon
          · rename_i s5 hq1
            have h5 : s5.toks.length < s.toks.length :=
              lt_of_le_of_lt (expect_eq_toks_le _ _ _ _ hq1)
                (lt_of_le_of_lt (pnext_snd_toks_le _) (h3 _ _))
            exact fSB _ _ _ (by omega) hcon
          · rename_i s5 hq1
            have h5 : s5.toks.length < s.toks.length :=
              lt_of_le_of_lt (expect_eq_toks_le _ _ _ _ hq1)
                (lt_of_le_of_lt (pnext_snd_toks_le _) (h3 _ _))
            split at hcon
            · exact fSB _ _ _ (by omega) hcon
            · split at hcon
              · split at hcon
                · exact PRes.noConfusion hcon
                · exact fSB _ _ _ (by omega) hcon
              · exact PRes.noConfusion hcon
        · split at hcon
          · -- lparen arm
            have h4 : (pnext (assignNameIf ((assignFirstToken s1).1.kind ==
                TokenType.kwStruct || (assignFirstToken s1).1.kind ==
                TokenType.lparen) tgt (assignFirstToken s1).2
                eqT.span).2).2.toks.length < s.toks.length :=
              lt_of_le_of_lt (pnext_snd_toks_le _) (h3 _ _)
            split at hcon
            · refine fAF _ _ _ _ (by simp only [fnSkipSig_toks_len]; omega) hcon
            · split at hcon
              · exact PRes.noConfusion hcon
              · rename_i args s6 hqa
                have h6 : s6.toks.length < s.toks.length := by
                  refine lt_of_le_of_lt (mFA _ _ _ _ hqa) ?_
                  rw [fnSkipSig_toks_len]
                  exact h4
                exact fAF _ _ _ _ (by omega) hcon
              · exact PRes.noConfusion hcon
              · rename_i hqa
                refine fFA _ _ (by simp only [fnSkipSig_toks_len]; omega) hqa
          · split at hcon
            · -- rparen arm
              split at hcon
              · split at hcon
                · exact PRes.noConfusion hcon
                · exact PRes.noConfusion hcon
              · exact PRes.noConfusion hcon
            · -- plain assignment arm
              split at hcon
              · exact PRes.noConfusion hcon
              · exact PRes.noConfusion hcon
              · rename_i hq
                have h3a : (assignNameIf ((assignFirstToken s1).1.kind ==
                    TokenType.kwStruct || (assignFirstToken s1).1.kind ==
                    TokenType.lparen) tgt (assignFirstToken s1).2
                    eqT.span).2.toks.length < s.toks.length := h3 _ _
                exact fAt _ (by omega) hq
    · -- structBody
      intro s nm fs hb hcon
      simp only [structBody] at hcon
      split at hcon
      · exact PRes.noConfusion hcon
      · split at hcon
        · exact PRes.noConfusion hcon
        · split at hcon
          · exact PRes.noConfusion hcon
          · rename_i nt s1 hq1
            have h1 : s1.toks.length < s.toks.length :=
              parseIdentType_some_toks_lt _ _ _ hq1
            split at hcon
            · rename_i t2 s2 hq2
              have h2 : s2.toks.length < s1.toks.length :=
                expect_some_toks_lt _ _ _ _ hq2
              split at hcon
              · exact PRes.noConfusion hcon
              · exact fSB _ _ _ (by omega) hcon
            · exact PRes.noConfusion hcon
    · -- fnArgs
      intro s args hb hcon
      simp only [fnArgs] at hcon
      split at hcon
      · exact PRes.noConfusion hcon
      · split at hcon
        · exact PRes.noConfusion hcon
        · split at hcon
          · exact PRes.noConfusion hcon
          · rename_i nt s1 hq1
            have h1 : s1.toks.length < s.toks.length :=
              parseIdentType_some_toks_lt _ _ _ hq1
            split at hcon
            · rename_i t2 s2 hq2
              have h2 : s2.toks.length < s1.toks.length :=
                expect_some_toks_lt _ _ _ _ hq2
              split at hcon
              · exact PRes.noConfusion hcon
              · exact fFA _ _ (by omega) hcon
            · rename_i s2 hq2
              have h2 : s2.toks.length ≤ s1.toks.length :=
                expect_eq_toks_le _ _ _ _ hq2
              split at hcon
              · split at hcon
                · exact fFA _ _ (by omega) hcon
                · exact PRes.noConfusion hcon
              · exact PRes.noConfusion hcon
    · -- fnBody
      intro s b hb hcon
      simp only [fnBody] at hcon
      split at hcon
      · exact PRes.noConfusion hcon
      · rename_i t hpk
        split at hcon
        · exact PRes.noConfusion hcon
        · split at hcon
          · rename_i e s1 hq1
            have h1 : s1.toks.length < s.toks.length :=
              parseExpression_ok_lt f s e s1 (peekOne_some_toks_ne _ _ hpk) hq1
            exact fFB _ _ (by omega) hcon
          · exact PRes.noConfusion hcon
          · rename_i hq1
            exact fEx _ (by omega) hq1
    · -- parseVarDecl
      intro nm s hb hcon
      simp only [parseVarDecl] at hcon
      split at hcon
      · exact PRes.noConfusion hcon
      · rename_i ty s2 hq1
        have h1 : s2.toks.length < (pnext s).2.toks.length :=
          parseIdent_some_toks_lt _ _ _ _ hq1
        have h0 : (pnext s).2.toks.length ≤ s.toks.length := pnext_snd_toks_le _
        split at hcon
        · rename_i t s3 hq2
          have h2 : s3.toks.length < s2.toks.length :=
            expect_some_toks_lt _ _ _ _ hq2
          split at hcon
          · split at hcon
            · exact PRes.noConfusion hcon
            · exact PRes.noConfusion hcon
            · rename_i hq3
              exact fAt _ (by omega) hq3
          · exact PRes.noConfusion hcon
        · exact PRes.noConfusion hcon
    · -- parseLoop
      intro s acc hb hcon
      simp only [parseLoop] at hcon
      split at hcon
      · exact PRes.noConfusion hcon
      · rename_i t hpk
        split at hcon
        · rename_i e s1 hq1
          have h1 : s1.toks.length < s.toks.length :=
            parseExpression_ok_lt f s e s1 (peekOne_some_toks_ne _ _ hpk) hq1
          exact fPL _ _ (by omega) hcon
        · exact PRes.noConfusion hcon
        · rename_i hq1
          exact fEx _ (by omega) hq1
    · -- fnAfterSig
      intro tgt nm args s hb hcon
      simp only [fnAfterSig] at hcon
      split at hcon
      · exact PRes.noConfusion hcon
      · rename_i retType hqrt
        have h0 : (fnRetType s).2.toks.length ≤ s.toks.length :=
          fnRetType_snd_toks_le _
        split at hcon
        · rename_i st s8 hq2
          have h8 : s8.toks.length < (fnRetType s).2.toks.length :=
            expect_some_toks_lt _ _ _ _ hq2
          split at hcon
          · exact PRes.noConfusion hcon
          · split at hcon
            · exact PRes.noConfusion hcon
            · exact PRes.noConfusion hcon
            · rename_i hq3
              exact fFB _ _ (by omega) hq3
        · exact PRes.noConfusion hcon

/-- Rust `parse()` only stops its top-level loop at end of input: an `ok` result
always has an empty remaining token stream. -/
theorem parseLoop_ok_toks_nil (fuel : Nat) (s : PState) (acc ast : List Expr)
    (s' : PState) (h : parseLoop fuel s acc = .ok ast s') : s'.toks = [] := by
  induction fuel generalizing s acc with
  | zero => simp [parseLoop] at h
  | succ f ih =>
    simp only [parseLoop] at h
    split at h
    · rename_i hpk
      cases h
      simpa [peekOne, List.head?_eq_none_iff] using hpk
    · split at h
      · exact ih _ _ h
      · exact PRes.noConfusion h
      · exact PRes.noConfusion h

/-- The fuel chosen by `parseProgram` is sufficient: a whole parse never
runs out of fuel — every loop and every recursion makes progress. -/
theorem parseProgram_no_fuelOut (s : PState) : parseProgram s ≠ .fuelOut := by
  obtain ⟨fP, fCF, fBE, fBC, fAt, fEx, fAs, fSB, fFA, fFB, fVD, fPL, fAF⟩ :=
    fuelOk (parseFuel s)
  exact fPL s [] (by simp only [parseFuel]; omega)

/-- A completed `parseProgram` run consumed the whole token stream. -/
theorem parseProgram_ok_toks_nil (s : PState) (ast : List Expr) (s' : PState)
    (h : parseProgram s = .ok ast s') : s'.toks = [] :=
  parseLoop_ok_toks_nil _ _ _ _ _ h


/-! ### The buffered lexer interface (`Lexer::peek` / `Lexer::next`)

`lexer.rs` lines 148-229: the lexer holds a two-slot lookahead buffer
`next: [Option<Token>; 2]` in front of `next_internal`. -/

structure LexerState where
  src : List Char
  read : Nat
  next1 : Option Token
  next2 : Option Token
  ds : List Diag
  hasError : Bool
deriving Repr

/-- Rust `Lexer::new` (`lexer.rs` lines 165-194). -/
def lexerNew (source : String) : LexerState :=
  ⟨source.data, 0, none, none, [], false⟩

/-- A buffered-lexer step: a result plus the new state, or a panic
propagating out of `next_internal`. -/
inductive LStep (α : Type)
  | ok (a : α) (s : LexerState)
  | panic
deriving Repr

/-- Rust `next_internal` acting on the full lexer state (the buffer slots are
not touched by it). -/
def lexPull (s : LexerState) : LStep (Option Token) :=
  match nextInternal s.src s.read s.ds s.hasError with
  | .tok t src' read' ds' he' =>
    .ok (some t) { s with src := src', read := read', ds := ds', hasError := he' }
  | .eof read' ds' he' =>
    .ok none { s with src := [], read := read', ds := ds', hasError := he' }
  | .panic => .panic

/-- Rust `Lexer::peek(PeekCount::One)` (`lexer.rs` lines 198-205). -/
def lexPeekOne (s : LexerState) : LStep (Option Token) :=
  match s.next1 with
  | some t => .ok (some t) s
  | none =>
    match lexPull s with
    | .ok o s1 => .ok o { s1 with next1 := o }
    | .panic => .panic

/-- Rust `Lexer::peek(PeekCount::Two)` (`lexer.rs` lines 206-217). -/
def lexPeekTwo (s : LexerState) : LStep (Option Token) :=
  match s.next2 with
  | some t => .ok (some t) s
  | none =>
    match (match s.next1 with
           | some _ => LStep.ok () s
           | none =>
             match lexPull s with
             | .ok o s1 => .ok () { s1 with next1 := o }
             | .panic => .panic) with
    | .panic => .panic
    | .ok _ s2 =>
      match lexPull s2 with
      | .ok o s3 => .ok o { s3 with next2 := o }
      | .panic => .panic

/-- Rust `Lexer::next` (`lexer.rs` lines 220-229): drain the lookahead buffer
in FIFO order before pulling fresh characters. -/
def lexNext (s : LexerState) : LStep (Option Token) :=
  match s.next1 with
  | some t => .ok (some t) { s with next1 := s.next2, next2 := none }
  | none =>
    match s.next2 with
    | some t => .ok (some t) { s with next2 := none }
    | none => lexPull s

theorem lexPeekOne_next1 (s : LexerState) (t : Token) (s1 : LexerState)
    (h : lexPeekOne s = .ok (some t) s1) : s1.next1 = some t := by
  simp only [lexPeekOne] at h
  split at h
  · cases h
    rename_i heq
    exact heq
  · split at h
    · cases h; rfl
    · cases h

theorem lexPeekOne_of_next1 (s : LexerState) (t : Token) (h : s.next1 = some t) :
    lexPeekOne s = .ok (some t) s := by
  simp [lexPeekOne, h]

theorem lexPull_next1 (s : LexerState) (o : Option Token) (s1 : LexerState)
    (h : lexPull s = .ok o s1) : s1.next1 = s.next1 := by
  simp only [lexPull] at h
  split at h <;> cases h <;> rfl

theorem lexPull_next2 (s : LexerState) (o : Option Token) (s1 : LexerState)
    (h : lexPull s = .ok o s1) : s1.next2 = s.next2 := by
  simp only [lexPull] at h
  split at h <;> cases h <;> rfl

/-! ### Lemmas about literal scanning (for the malformed-literal claims) -/

theorem length_le_utf8Len (cs : List Char) : cs.length ≤ utf8Len cs := by
  induction cs with
  | nil => simp [utf8Len]
  | cons c rest ih =>
    have hc : 1 ≤ c.utf8Size := Char.utf8Size_pos c
    simp only [utf8Len, List.map_cons, List.sum_cons, List.length_cons]
    simp only [utf8Len] at ih
    omega

/-- Scanning a literal body containing neither the delimiter nor a
backslash consumes it whole into the decoded text. -/
theorem lexLitLoop_skip (q : Char) (cs : List Char) :
    ∀ (rest : List Char) (read : Nat) (text : List Char) (ds : List Diag)
      (he : Bool),
    cs.contains q = false → cs.contains bslash = false →
    lexLitLoop q (cs ++ rest) read text ds he =
      lexLitLoop q rest (read + cs.length) (text ++ cs) ds he := by
  induction cs with
  | nil => intro rest read text ds he _ _; simp
  | cons c cs ih =>
    intro rest read text ds he h1 h2
    simp only [List.contains_cons, Bool.or_eq_false_iff] at h1 h2
    have hcq : (c == q) = false := by
      have := h1.1
      simpa [BEq.comm] using this
    have hcb : (c == bslash) = false := by
      have := h2.1
      simpa [BEq.comm] using this
    have h1' : cs.contains q = false := h1.2
    have h2' : cs.contains bslash = false := h2.2
    rw [List.cons_append, lexLitLoop.eq_def]
    simp only [hcq, hcb, Bool.false_eq_true, if_false]
    rw [ih rest (read + 1) (text ++ [c]) ds he h1' h2']
    have harith : read + 1 + cs.length = read + (c :: cs).length := by
      simp only [List.length_cons]; omega
    rw [harith]
    simp

/-- An unterminated string literal (opening quote, plain body, no closing
quote before end of input) is reported and still yields a token built from
the accumulated text; the sticky `has_error` flag is set. -/
theorem nextInternal_unterminated_string (cs : List Char) (ds : List Diag)
    (he : Bool) (h1 : cs.contains dquote = false)
    (h2 : cs.contains bslash = false) :
    nextInternal (dquote :: cs) 0 ds he =
      .tok ⟨.stringLit (String.mk cs), ⟨0, 1 + cs.length⟩⟩ [] (1 + cs.length)
        (ds ++ [.unterminatedStringLit (String.mk cs) ⟨0, 1 + cs.length⟩])
        true := by
  have hloop := lexLitLoop_skip dquote cs [] 1 [] ds he h1 h2
  simp only [List.append_nil, List.nil_append] at hloop
  show lexLiteral dquote 0 cs 1 ds he = _
  simp only [lexLiteral, hloop]
  rfl

/-- A terminated char literal whose body is at least two characters long
is reported (`invalid character literal`) but still produced as a token;
the sticky `has_error` flag is set. -/
theorem nextInternal_char_too_long (cs : List Char) (ds : List Diag)
    (he : Bool) (h1 : cs.contains squote = false)
    (h2 : cs.contains bslash = false) (h3 : 2 ≤ cs.length) :
    nextInternal (squote :: (cs ++ [squote])) 0 ds he =
      .tok ⟨.charLit (String.mk cs), ⟨0, 1 + cs.length⟩⟩ [] (1 + cs.length)
        (ds ++ [.invalidCharLiteral (String.mk cs) ⟨0, 1 + cs.length⟩])
        true := by
  have hloop := lexLitLoop_skip squote cs [squote] 1 [] ds he h1 h2
  simp only [List.nil_append] at hloop
  have hlen : 1 < utf8Len cs := lt_of_lt_of_le (by omega) (length_le_utf8Len cs)
  show lexLiteral squote 0 (cs ++ [squote]) 1 ds he = _
  simp only [lexLiteral, hloop]
  show lexLitFinish squote 0 [squote] (1 + cs.length) cs ds he = _
  simp only [lexLitFinish]
  rw [if_pos ⟨rfl, hlen⟩]
  rfl

/-! ### SourceMap (`lexer.rs` lines 28-72) -/

/-- The newline character. -/
def nlChar : Char := Char.ofNat 10

/-- The line-splitting loop of `SourceMap::new` (`lexer.rs` lines 34-55):
builds the ordered list of half-open line ranges.  `line.len()` in the Rust
code is the byte length of the accumulated line, i.e. `utf8Len`. -/
def sourceMapGo : List Char → Nat → Nat → List Char → List Span
  | [], loc, start, line =>
    if line.isEmpty then [] else [⟨start, loc + utf8Len line⟩]
  | c :: rest, loc, start, line =>
    if c == nlChar then
      ⟨start, loc + utf8Len line + 1⟩ ::
        sourceMapGo rest (loc + utf8Len line + 1) (loc + utf8Len line + 1) []
    else sourceMapGo rest loc start (line ++ [c])

/-- The line ranges of `SourceMap::new(file, src)`. -/
def sourceMapLines (src : List Char) : List Span := sourceMapGo src 0 0 []

/-- Rust `Range::contains(&x)` for a half-open span. -/
def spanContains (r : Span) (x : Nat) : Bool :=
  decide (r.start ≤ x) && decide (x < r.stop)

/-- The scan loop of `SourceMap::span_to_loc` (`lexer.rs` lines 58-63). -/
def spanToLocGo : List Span → Nat → Nat → Option (Nat × Nat)
  | [], _, _ => none
  | r :: rest, x, i =>
    if spanContains r x then some (i + 1, x - r.start + 1)
    else spanToLocGo rest x (i + 1)

/-- Rust `SourceMap::span_to_loc` (`lexer.rs` lines 57-66) for `span.start = x`:
the first line range containing `x`, else the last line (whose absence —
an empty map — panics on `unwrap`, modelled by `none`). -/
def spanToLoc (lines : List Span) (x : Nat) : Option (Nat × Nat) :=
  match spanToLocGo lines x 0 with
  | some lc => some lc
  | none =>
    match lines.getLast? with
    | some r => some (lines.length, x - r.start + 1)
    | none => none

theorem spanToLocGo_first (lines : List Span) (x : Nat) :
    ∀ (i : Nat) (r : Span) (k : Nat), lines[i]? = some r →
    spanContains r x = true →
    (∀ j rj, j < i → lines[j]? = some rj → spanContains rj x = false) →
    spanToLocGo lines x k = some (k + i + 1, x - r.start + 1) := by
  induction lines with
  | nil => intro i r k hi; simp at hi
  | cons r0 rest ih =>
    intro i r k hi hc hj
    cases i with
    | zero =>
      simp only [List.getElem?_cons_zero, Option.some.injEq] at hi
      subst hi
      simp [spanToLocGo, hc]
    | succ i' =>
      have h0 : spanContains r0 x = false := hj 0 r0 (Nat.succ_pos _) (by simp)
      simp only [List.getElem?_cons_succ] at hi
      rw [spanToLocGo.eq_def]
      simp only [h0, Bool.false_eq_true, if_false]
      have := ih i' r (k + 1) hi hc
        (fun j rj hjlt hjget => hj (j + 1) rj (by omega)
          (by simpa using hjget))
      rw [this]
      congr 2
      omega

theorem spanToLocGo_none (lines : List Span) (x : Nat)
    (h : ∀ r ∈ lines, spanContains r x = false) :
    ∀ k, spanToLocGo lines x k = none := by
  induction lines with
  | nil => intro k; simp [spanToLocGo]
  | cons r0 rest ih =>
    intro k
    rw [spanToLocGo.eq_def]
    simp only [h r0 (by simp), Bool.false_eq_true, if_false]
    exact ih (fun r hr => h r (by simp [hr])) (k + 1)

/-- A newline-free source is a single line covering the whole text. -/
theorem sourceMapGo_no_newline (src : List Char) :
    ∀ (loc start : Nat) (line : List Char), src.contains nlChar = false →
    line ++ src ≠ [] →
    sourceMapGo src loc start line = [⟨start, loc + utf8Len (line ++ src)⟩] := by
  induction src with
  | nil =>
    intro loc start line _ hne
    rw [sourceMapGo.eq_def]
    simp only [List.append_nil] at hne ⊢
    rw [if_neg (by simpa [List.isEmpty_iff] using hne)]
  | cons c rest ih =>
    intro loc start line h1 _
    simp only [List.contains_cons, Bool.or_eq_false_iff] at h1
    have hcn : (c == nlChar) = false := by
      have := h1.1
      simpa [BEq.comm] using this
    rw [sourceMapGo.eq_def]
    simp only [hcn, Bool.false_eq_true, if_false]
    rw [ih loc start (line ++ [c]) h1.2 (by simp)]
    simp

/-- The binary-operator token test used in the statement-level dispatch of
`parse_expression`. -/
def isBinOpKind : TokenType → Bool
  | .binOp _ => true
  | _ => false

theorem parsePrimary_bare_var (f : Nat) (id : String) (sp : Span) (t : Token)
    (rest : List Token) (ds : List Diag) (he : Bool)
    (h4 : t.kind ≠ .lbrace) (h5 : t.kind ≠ .dot) :
    parsePrimary (f + 1) ⟨⟨.identifier id, sp⟩ :: t :: rest, ds, he⟩ =
      .ok (some (.var (id, sp))) ⟨t :: rest, ds, he⟩ := by
  have hb4 : (t.kind == TokenType.lbrace) = false := by
    rw [beq_eq_false_iff_ne]
    exact h4
  have hb5 : (t.kind == TokenType.dot) = false := by
    rw [beq_eq_false_iff_ne]
    exact h5
  simp only [parsePrimary]
  rw [countMinus.eq_def]
  simp [peekOne, pnext, hb4, hb5]

theorem claim2_amended (f : Nat) (id : String) (sp : Span) (t : Token)
    (rest : List Token) (ds : List Diag) (he : Bool)
    (h1 : isBinOpKind t.kind = false) (h2 : t.kind ≠ .equals)
    (h3 : t.kind ≠ .colon) (h4 : t.kind ≠ .lbrace) (h5 : t.kind ≠ .dot) :
    parseExpression (f + 2) ⟨⟨.identifier id, sp⟩ :: t :: rest, ds, he⟩ =
      .panic := by
  simp only [parseExpression]
  rw [parsePrimary_bare_var f id sp t rest ds he h4 h5]
  simp only [peekOne, List.head?]
  obtain ⟨k, tsp⟩ := t
  cases k <;> simp_all [isBinOpKind]

theorem claim2_witness :
    parseExpression 2
      ⟨[⟨.identifier "x", ⟨0, 1⟩⟩, ⟨.semicolon, ⟨2, 3⟩⟩], [], false⟩ =
      .panic :=
  claim2_amended 0 "x" ⟨0, 1⟩ ⟨.semicolon, ⟨2, 3⟩⟩ [] [] false
    (by decide) (by decide) (by decide) (by decide) (by decide)

/-! ## The claims -/

/-- C1: `parse_binexp` implements precedence climbing over the fixed
table (`* / %` = 20, `+ -` = 10, `& |` = 5, `!` has no binary precedence):
it consumes operators of precedence at least `min_precedence` and climbs
into the right-hand side only while the next operator binds strictly
tighter; equal precedence is left-associative.  In particular parsing
`1 + 2 * 3` yields `Add(Num 1, Mul(Num 2, Num 3))` and parsing
`1 - 2 - 3` yields `Sub(Sub(Num 1, Num 2), Num 3)`. -/
theorem claim1_precedence_climbing :
    (∀ sp : Span,
      getPrec ⟨.binOp .multiply, sp⟩ = some 20 ∧
      getPrec ⟨.binOp .divide, sp⟩ = some 20 ∧
      getPrec ⟨.binOp .modulo, sp⟩ = some 20 ∧
      getPrec ⟨.binOp .add, sp⟩ = some 10 ∧
      getPrec ⟨.binOp .minus, sp⟩ = some 10 ∧
      getPrec ⟨.binOp .and, sp⟩ = some 5 ∧
      getPrec ⟨.binOp .or, sp⟩ = some 5 ∧
      getPrec ⟨.binOp .not, sp⟩ = none) ∧
    run "1 + 2 * 3" =
      .ok [.add (.num (1, ⟨0, 1⟩))
        (.mul (.num (2, ⟨4, 5⟩)) (.num (3, ⟨8, 9⟩)))] [] false ∧
    run "1 - 2 - 3" =
      .ok [.sub (.sub (.num (1, ⟨0, 1⟩)) (.num (2, ⟨4, 5⟩)))
        (.num (3, ⟨8, 9⟩))] [] false :=
  ⟨fun _ => ⟨rfl, rfl, rfl, rfl, rfl, rfl, rfl, rfl⟩, rfl, rfl⟩

/-- C2 (counterexample): a plain expression statement `x ;` does NOT end
the expression as-is — `parse_expression` reaches the `t => todo!("{}", t)`
arm and the whole parse aborts with a panic. -/
theorem claim2_counterexample : run "x ;" = .parsePanic := rfl

/-- C3: each of the eight regression inputs produces exactly one error
diagnostic over a whole `parse()` run. -/
theorem claim3_single_diagnostic :
    runDiagCount (run "a = struct") = some 1 ∧
    runDiagCount (run "a = struct \x7d") = some 1 ∧
    runDiagCount (run "a = struct \x7b") = some 1 ∧
    runDiagCount (run "a = struct \x7b ; a = 10;") = some 1 ∧
    runDiagCount (run "a = struct \x7bwhatever: 10\x7d") = some 1 ∧
    runDiagCount (run "a = struct \x7b10: 10\x7d") = some 1 ∧
    runDiagCount (run "a = ) \x7b\x7d") = some 1 ∧
    runDiagCount (run "a = ( \x7b\x7d") = some 1 :=
  ⟨rfl, rfl, rfl, rfl, rfl, rfl, rfl, rfl⟩

/-- C4 (counterexample): parsing does not always run to completion by
reaching end of input — on `y ;` it terminates by hitting the `todo!()`
panic instead. -/
theorem claim4_counterexample : run "y ;" = .parsePanic := rfl

/-- C4 (amended): lexing and parsing always terminate — the top-level
loop, every expression parse, every list-parsing loop and every recovery
scan make progress, so the explicit fuel is never exhausted — and a parse
that does not hit a panic (`todo!`, `unreachable!`, or the integer-literal
overflow `unwrap`) runs to completion by consuming the whole token stream
(end of input). -/
theorem claim4_terminates :
    (∀ source : String, run source ≠ .fuelOut) ∧
    (∀ s : PState, parseProgram s ≠ .fuelOut) ∧
    (∀ (s : PState) (ast : List Expr) (s' : PState),
      parseProgram s = .ok ast s' → s'.toks = []) := by
  refine ⟨?_, parseProgram_no_fuelOut,
    fun s ast s' h => parseProgram_ok_toks_nil s ast s' h⟩
  intro source hcon
  simp only [run] at hcon
  split at hcon
  · exact RunRes.noConfusion hcon
  · rename_i hq
    exact tokenize_no_fuelOut _ _ _ _ hq
  · rename_i toks ds he hq
    split at hcon
    · exact RunRes.noConfusion hcon
    · exact RunRes.noConfusion hcon
    · rename_i hq2
      exact parseProgram_no_fuelOut _ hq2

theorem claim4_witness :
    run "x" ≠ RunRes.fuelOut ∧
    (⟨[], [.expectedExpressionEof], true⟩ : PState).toks = [] :=
  ⟨claim4_terminates.1 "x",
   claim4_terminates.2.2 ⟨[⟨.identifier "x", ⟨0, 1⟩⟩], [], false⟩ [.error]
     ⟨[], [.expectedExpressionEof], true⟩ rfl⟩

/-- C5: the lexer never fails fatally on a malformed string or char
literal: an unterminated literal is reported but still yields a token
built from the accumulated text, a char literal longer than one character
is reported but still produced, and an invalid escape is reported while
lexing continues past it; in each case the sticky `has_error` flag is set
and a token is still returned. -/
theorem claim5_malformed_literals :
    (∀ (cs : List Char) (ds : List Diag) (he : Bool),
      cs.contains dquote = false → cs.contains bslash = false →
      nextInternal (dquote :: cs) 0 ds he =
        .tok ⟨.stringLit (String.mk cs), ⟨0, 1 + cs.length⟩⟩ [] (1 + cs.length)
          (ds ++ [.unterminatedStringLit (String.mk cs) ⟨0, 1 + cs.length⟩])
          true) ∧
    (∀ (cs : List Char) (ds : List Diag) (he : Bool),
      cs.contains squote = false → cs.contains bslash = false →
      2 ≤ cs.length →
      nextInternal (squote :: (cs ++ [squote])) 0 ds he =
        .tok ⟨.charLit (String.mk cs), ⟨0, 1 + cs.length⟩⟩ [] (1 + cs.length)
          (ds ++ [.invalidCharLiteral (String.mk cs) ⟨0, 1 + cs.length⟩])
          true) ∧
    nextInternal "\"a\\qb\"".data 0 [] false =
      .tok ⟨.stringLit "ab", ⟨0, 5⟩⟩ [] 5 [.invalidEscape 'q' ⟨2, 3⟩] true :=
  ⟨nextInternal_unterminated_string, nextInternal_char_too_long, rfl⟩

theorem claim5_witness :
    nextInternal (dquote :: ['a', 'b', 'c']) 0 [] false =
      .tok ⟨.stringLit "abc", ⟨0, 4⟩⟩ [] 4
        [.unterminatedStringLit "abc" ⟨0, 4⟩] true ∧
    nextInternal (squote :: (['a', 'b'] ++ [squote])) 0 [] false =
      .tok ⟨.charLit "ab", ⟨0, 3⟩⟩ [] 3
        [.invalidCharLiteral "ab" ⟨0, 3⟩] true :=
  ⟨claim5_malformed_literals.1 ['a', 'b', 'c'] [] false (by decide) (by decide),
   claim5_malformed_literals.2.1 ['a', 'b'] [] false (by decide) (by decide)
     (by decide)⟩

/-- C6: `expect(set)` consumes and returns the next token iff its kind is
in the set; otherwise it emits an `expected ... but got ...` diagnostic
(or the end-of-input variant when no token remains) and returns nothing
WITHOUT consuming, so a subsequent peek still sees the same token. -/
theorem claim6_expect :
    (∀ (s : PState) (expected : List TokenType) (t : Token),
      peekOne s = some t → expected.contains t.kind = true →
      expect s expected = (some t, ⟨s.toks.tail, s.ds, s.hasError⟩)) ∧
    (∀ (s : PState) (expected : List TokenType) (t : Token),
      peekOne s = some t → expected.contains t.kind = false →
      expect s expected =
        (none, emit s (.expectedButGot expected t.kind t.span)) ∧
      peekOne (expect s expected).2 = some t) ∧
    (∀ (s : PState) (expected : List TokenType),
      peekOne s = none →
      expect s expected = (none, emit s (.expectedButEof expected))) := by
  refine ⟨?_, ?_, ?_⟩
  · intro s expected t hpk hc
    have hmem : t.kind ∈ expected := by simpa using hc
    cases hs : s.toks with
    | nil => rw [peekOne, hs] at hpk; cases hpk
    | cons t0 r =>
      rw [peekOne, hs] at hpk
      simp only [List.head?] at hpk
      cases hpk
      simp [expect, peekOne, pnext, hs, hmem]
  · intro s expected t hpk hc
    have hnmem : t.kind ∉ expected := by simpa using hc
    have hexp : expect s expected =
        (none, emit s (.expectedButGot expected t.kind t.span)) := by
      simp [expect, hpk, hnmem]
    refine ⟨hexp, ?_⟩
    rw [hexp]
    simpa [peekOne, emit] using hpk
  · intro s expected hpk
    simp [expect, hpk]

theorem claim6_witness :
    expect ⟨[⟨.semicolon, ⟨0, 1⟩⟩], [], false⟩ [.semicolon] =
      (some ⟨.semicolon, ⟨0, 1⟩⟩, ⟨[], [], false⟩) ∧
    (expect ⟨[⟨.semicolon, ⟨0, 1⟩⟩], [], false⟩ [.colon] =
      (none, emit ⟨[⟨.semicolon, ⟨0, 1⟩⟩], [], false⟩
        (.expectedButGot [.colon] .semicolon ⟨0, 1⟩)) ∧
     peekOne (expect ⟨[⟨.semicolon, ⟨0, 1⟩⟩], [], false⟩ [.colon]).2 =
       some ⟨.semicolon, ⟨0, 1⟩⟩) ∧
    expect ⟨[], [], false⟩ [.colon] =
      (none, emit ⟨[], [], false⟩ (.expectedButEof [.colon])) :=
  ⟨claim6_expect.1 ⟨[⟨.semicolon, ⟨0, 1⟩⟩], [], false⟩ [.semicolon]
      ⟨.semicolon, ⟨0, 1⟩⟩ rfl (by decide),
   claim6_expect.2.1 ⟨[⟨.semicolon, ⟨0, 1⟩⟩], [], false⟩ [.colon]
      ⟨.semicolon, ⟨0, 1⟩⟩ rfl (by decide),
   claim6_expect.2.2 ⟨[], [], false⟩ [.colon] rfl⟩

/-- C7: lookahead is idempotent and FIFO: `peek(One)` repeated without
`next` returns the same token without advancing; after `peek(One)` a
`next` yields that token; after `peek(One)` and `peek(Two)` the two
buffered tokens come back from `next` in FIFO order. -/
theorem claim7_lookahead :
    (∀ (s : LexerState) (t : Token) (s1 : LexerState),
      lexPeekOne s = .ok (some t) s1 → lexPeekOne s1 = .ok (some t) s1) ∧
    (∀ (s : LexerState) (t : Token) (s1 : LexerState),
      lexPeekOne s = .ok (some t) s1 →
      lexNext s1 = .ok (some t) { s1 with next1 := s1.next2, next2 := none }) ∧
    (∀ (s : LexerState) (t1 : Token) (s1 : LexerState) (t2 : Token)
       (s2 : LexerState),
      lexPeekOne s = .ok (some t1) s1 → lexPeekTwo s1 = .ok (some t2) s2 →
      s2.next1 = some t1 ∧ s2.next2 = some t2 ∧
      lexNext s2 = .ok (some t1) { s2 with next1 := some t2, next2 := none } ∧
      lexNext { s2 with next1 := some t2, next2 := none } =
        .ok (some t2) { s2 with next1 := none, next2 := none }) := by
  refine ⟨?_, ?_, ?_⟩
  · intro s t s1 h
    exact lexPeekOne_of_next1 s1 t (lexPeekOne_next1 s t s1 h)
  · intro s t s1 h
    have h1 := lexPeekOne_next1 s t s1 h
    simp [lexNext, h1]
  · intro s t1 s1 t2 s2 h hq
    have h1 := lexPeekOne_next1 s t1 s1 h
    have hmain : s2.next1 = some t1 ∧ s2.next2 = some t2 := by
      simp only [lexPeekTwo] at hq
      split at hq
      · cases hq
        rename_i heq2
        exact ⟨h1, heq2⟩
      · rw [h1] at hq
        simp only at hq
        split at hq
        · rename_i o s3 hpull
          cases hq
          refine ⟨?_, rfl⟩
          rw [lexPull_next1 _ _ _ hpull]
          exact h1
        · cases hq
    refine ⟨hmain.1, hmain.2, ?_, ?_⟩
    · simp [lexNext, hmain.1, hmain.2]
    · simp [lexNext]

theorem claim7_witness :
    lexPeekOne ⟨[' ', 'b'], 1, some ⟨.identifier "a", ⟨0, 1⟩⟩, none, [], false⟩ =
      .ok (some ⟨.identifier "a", ⟨0, 1⟩⟩)
        ⟨[' ', 'b'], 1, some ⟨.identifier "a", ⟨0, 1⟩⟩, none, [], false⟩ ∧
    lexNext ⟨[], 3, some ⟨.identifier "a", ⟨0, 1⟩⟩,
        some ⟨.identifier "b", ⟨2, 3⟩⟩, [], false⟩ =
      .ok (some ⟨.identifier "a", ⟨0, 1⟩⟩)
        ⟨[], 3, some ⟨.identifier "b", ⟨2, 3⟩⟩, none, [], false⟩ ∧
    lexNext ⟨[], 3, some ⟨.identifier "b", ⟨2, 3⟩⟩, none, [], false⟩ =
      .ok (some ⟨.identifier "b", ⟨2, 3⟩⟩) ⟨[], 3, none, none, [], false⟩ :=
  ⟨claim7_lookahead.1 (lexerNew "a b") ⟨.identifier "a", ⟨0, 1⟩⟩
      ⟨[' ', 'b'], 1, some ⟨.identifier "a", ⟨0, 1⟩⟩, none, [], false⟩ rfl,
   ((claim7_lookahead.2.2 (lexerNew "a b") ⟨.identifier "a", ⟨0, 1⟩⟩
      ⟨[' ', 'b'], 1, some ⟨.identifier "a", ⟨0, 1⟩⟩, none, [], false⟩
      ⟨.identifier "b", ⟨2, 3⟩⟩
      ⟨[], 3, some ⟨.identifier "a", ⟨0, 1⟩⟩,
        some ⟨.identifier "b", ⟨2, 3⟩⟩, [], false⟩ rfl rfl)).2.2.1,
   ((claim7_lookahead.2.2 (lexerNew "a b") ⟨.identifier "a", ⟨0, 1⟩⟩
      ⟨[' ', 'b'], 1, some ⟨.identifier "a", ⟨0, 1⟩⟩, none, [], false⟩
      ⟨.identifier "b", ⟨2, 3⟩⟩
      ⟨[], 3, some ⟨.identifier "a", ⟨0, 1⟩⟩,
        some ⟨.identifier "b", ⟨2, 3⟩⟩, [], false⟩ rfl rfl)).2.2.2⟩

/-- C8: evaluation of the failing input `"ab" x`: the closing quote of the
string literal is consumed without advancing `read`, so the string token's
span `[0,3)` misses its closing quote and the identifier `x` — whose text
occupies bytes `[5,6)` (byte 4 is the space, byte 5 is `x`) — is given the
span `[4,5)`. -/
theorem claim8_span_drift :
    tokenize "\"ab\" x".data 0 [] false =
      .done [⟨.stringLit "ab", ⟨0, 3⟩⟩, ⟨.identifier "x", ⟨4, 5⟩⟩] [] false ∧
    "\"ab\" x".data[4]? = some ' ' ∧
    "\"ab\" x".data[5]? = some 'x' :=
  ⟨rfl, rfl, rfl⟩

/-- C9: `span_to_loc` returns the 1-based line/column of `span.start`: the
first line range containing it, with column = offset within the line + 1;
if no line contains it, the last line is used; a single-line source maps
offset 0 to `(1, 1)`. -/
theorem claim9_span_to_loc :
    (∀ (lines : List Span) (x i : Nat) (r : Span),
      lines[i]? = some r → spanContains r x = true →
      (∀ j rj, j < i → lines[j]? = some rj → spanContains rj x = false) →
      spanToLoc lines x = some (i + 1, x - r.start + 1)) ∧
    (∀ (lines : List Span) (x : Nat) (r : Span),
      (∀ r2 ∈ lines, spanContains r2 x = false) →
      lines.getLast? = some r →
      spanToLoc lines x = some (lines.length, x - r.start + 1)) ∧
    (∀ src : List Char, src ≠ [] → src.contains nlChar = false →
      spanToLoc (sourceMapLines src) 0 = some (1, 1)) := by
  refine ⟨?_, ?_, ?_⟩
  · intro lines x i r hi hc hleast
    have hgo := spanToLocGo_first lines x i r 0 hi hc hleast
    simp only [spanToLoc, hgo]
    congr 2
    omega
  · intro lines x r hall hlast
    have hgo := spanToLocGo_none lines x hall 0
    simp [spanToLoc, hgo, hlast]
  · intro src hne hnl
    have hlines : sourceMapLines src = [⟨0, utf8Len src⟩] := by
      have := sourceMapGo_no_newline src 0 0 [] hnl (by simpa using hne)
      simpa [sourceMapLines] using this
    have hpos : 0 < utf8Len src := by
      have h1 : 1 ≤ src.length := by
        cases src with
        | nil => exact absurd rfl hne
        | cons c rest => simp
      exact lt_of_lt_of_le h1 (length_le_utf8Len src)
    rw [hlines]
    simp [spanToLoc, spanToLocGo, spanContains, hpos]

theorem claim9_witness :
    spanToLoc [⟨0, 3⟩] 1 = some (1, 2) ∧
    spanToLoc [⟨0, 3⟩] 3 = some (1, 4) ∧
    spanToLoc (sourceMapLines "abc".data) 0 = some (1, 1) :=
  ⟨claim9_span_to_loc.1 [⟨0, 3⟩] 1 0 ⟨0, 3⟩ rfl (by decide)
      (fun j rj hj _ => absurd hj (Nat.not_lt_zero j)),
   claim9_span_to_loc.2.1 [⟨0, 3⟩] 3 ⟨0, 3⟩ (by decide) rfl,
   claim9_span_to_loc.2.2 "abc".data (by decide) (by decide)⟩

/-- C10: an all-digit run whose value exceeds `u64::MAX` makes
`Lexer::next` panic (the internal `text.parse().unwrap()` fails) instead
of returning a token or emitting a diagnostic: the whole front end aborts
on a 20-digit literal. -/
theorem claim10_num_overflow_panics :
    run "99999999999999999999" = .lexPanic ∧
    lexNext (lexerNew "99999999999999999999") = .panic ∧
    u64Max < digitsVal "99999999999999999999".data :=
  ⟨rfl, rfl, by decide⟩

end Lang
